import Mathlib

/-! # RISC-V CPU simulation core: decode / execute / memory

A shallow embedding of `RISCV_CPU` (files `RISCV_CPU.h`, `RISCV_CPU.cpp`), of the
fetch-decode-execute cycle of `ARISCV_Processor::Step` and of the Fibonacci
program of `Programs.cpp`.

Conventions of the embedding.

* `uint32_t` values are natural numbers, every arithmetic result reduced
  `% 2 ^ 32`; `uint8_t` values are natural numbers reduced `% 256`.
* `int32_t` values are integers; a conversion from the unsigned bit pattern is
  `toInt32`, the conversion back is `toUInt32`.  Signed arithmetic wraps
  (two's complement), as it does on the targets the simulator is built for; a
  signed `>>` is the arithmetic shift `Int.shiftRight`.
* `std::vector<uint8_t> Memory` has the fixed length `MEMORY_SIZE` (it is
  resized once, in the constructor).  It is a map from indices to bytes, read
  and written through `memGet` / `memSet`, which fail (`none`) on an index that
  is not below `MEMORY_SIZE`: such an access is outside the vector and has no
  defined result in C++.  The array `Registers[32]` is treated the same way
  (`regGet` / `regSet`).
* A function that can reach such an access therefore returns an `Option`.
* A 32-bit shift takes its count modulo 32, as the shift instructions of the
  targets the simulator is built for do.  It matters in one place, the mask
  `0xFFFFFFFF << bit_width` of `MemRead` for a 4-byte read, where the count is
  32 (C++ leaves that shift undefined): the mask is `0xFFFFFFFF` there, and the
  read goes on.
-/

namespace RISCV

/-! ## Constants of `RISCV_CPU.h` -/

/-- The constant `RISCV_CPU::MEMORY_SIZE`, one MiB. -/
def MEMORY_SIZE : Nat := 1024 * 1024

/-- Enumerator `OpcodeType::LUI`. -/
def LUI : Nat := 0x37
/-- Enumerator `OpcodeType::AUIPC`. -/
def AUIPC : Nat := 0x17
/-- Enumerator `OpcodeType::JAL`. -/
def JAL : Nat := 0x6F
/-- Enumerator `OpcodeType::JALR`. -/
def JALR : Nat := 0x67
/-- Enumerator `OpcodeType::BRANCH`. -/
def BRANCH : Nat := 0x63
/-- Enumerator `OpcodeType::LOAD`. -/
def LOAD : Nat := 0x03
/-- Enumerator `OpcodeType::STORE`. -/
def STORE : Nat := 0x23
/-- Enumerator `OpcodeType::OP_IMM`. -/
def OP_IMM : Nat := 0x13
/-- Enumerator `OpcodeType::OP`. -/
def OP : Nat := 0x33
/-- Enumerator `OpcodeType::SYSTEM`. -/
def SYSTEM : Nat := 0x73

/-- Mask of the opcode field. -/
def OPCODE_MASK : Nat := 0x7F
/-- Mask of a register index field. -/
def REG_MASK : Nat := 0x1F
/-- Mask of the funct3 field. -/
def FUNCT3_MASK : Nat := 0x07
/-- Mask of the funct7 field. -/
def FUNCT7_MASK : Nat := 0x7F
/-- Position of the rd field. -/
def RD_SHIFT : Nat := 7
/-- Position of the funct3 field. -/
def FUNCT3_SHIFT : Nat := 12
/-- Position of the rs1 field. -/
def RS1_SHIFT : Nat := 15
/-- Position of the rs2 field. -/
def RS2_SHIFT : Nat := 20
/-- Position of the funct7 field. -/
def FUNCT7_SHIFT : Nat := 25

/-! ## Machine integers -/

/-- The conversion `(int32_t)x` of an unsigned 32-bit pattern. -/
def toInt32 (x : Nat) : Int :=
  if x % 2 ^ 32 < 2 ^ 31 then ((x % 2 ^ 32 : Nat) : Int) else ((x % 2 ^ 32 : Nat) : Int) - 2 ^ 32

/-- The conversion `(uint32_t)i` of a signed value: its residue modulo `2 ^ 32`. -/
def toUInt32 (i : Int) : Nat := (i % 2 ^ 32).toNat

/-! ## Data model -/

/-- The struct `DecodedInstruction`: six unsigned fields and the signed immediate. -/
structure DecodedInstruction where
  opcode : Nat
  rd : Nat
  funct3 : Nat
  rs1 : Nat
  rs2 : Nat
  funct7 : Nat
  imm : Int

/-- The state elements of `RISCV_CPU`: register file, program counter, memory. -/
structure CPU where
  Registers : Nat → Nat
  PC : Nat
  Memory : Nat → Nat

/-- The constructor `RISCV_CPU::RISCV_CPU()`: memory, registers and PC all zero. -/
def CPU.init : CPU :=
  { Registers := fun _ => 0, PC := 0, Memory := fun _ => 0 }

/-- Read of `Memory[i]`; an index outside the vector has no defined result. -/
def memGet (mem : Nat → Nat) (i : Nat) : Option Nat :=
  if i < MEMORY_SIZE then some (mem i) else none

/-- Write `Memory[i] = b` of a `uint8_t`; fails on an index outside the vector. -/
def memSet (mem : Nat → Nat) (i : Nat) (b : Nat) : Option (Nat → Nat) :=
  if i < MEMORY_SIZE then some (fun j => if j = i then b % 256 else mem j) else none

/-- Read of `Registers[i]`; an index outside the array has no defined result. -/
def regGet (regs : Nat → Nat) (i : Nat) : Option Nat :=
  if i < 32 then some (regs i) else none

/-- Write `Registers[i] = v` of a `uint32_t`; fails on an index outside the array. -/
def regSet (regs : Nat → Nat) (i : Nat) (v : Nat) : Option (Nat → Nat) :=
  if i < 32 then some (fun j => if j = i then v % 2 ^ 32 else regs j) else none

/-! ## Decoder -/

/-- The function `RISCV_CPU::GenerateImmediate`: the immediate of the format
selected by the opcode, sign-extended to 32 bits. -/
def GenerateImmediate (inst : Nat) (opcode : Nat) : Int :=
  if opcode = JALR ∨ opcode = LOAD ∨ opcode = OP_IMM ∨ opcode = SYSTEM then
    -- imm = (int32_t)inst >> 20
    Int.shiftRight (toInt32 inst) 20
  else if opcode = STORE then
    let low := (inst >>> 7) &&& 0x1F
    let high := (inst >>> 25) &&& 0x7F
    let imm := (high <<< 5) ||| low
    -- if (imm & 0x800) imm |= 0xFFFFF800
    if imm &&& 0x800 ≠ 0 then toInt32 (imm ||| 0xFFFFF800) else toInt32 imm
  else if opcode = BRANCH then
    let bit11 := (inst >>> 7) &&& 0x1
    let bits4_1 := (inst >>> 8) &&& 0xF
    let bits10_5 := (inst >>> 25) &&& 0x3F
    let bit12 := (inst >>> 31) &&& 0x1
    let imm := (bit12 <<< 12) ||| (bit11 <<< 11) ||| (bits10_5 <<< 5) ||| (bits4_1 <<< 1)
    -- if (bit12) imm |= 0xFFFFE000
    if bit12 ≠ 0 then toInt32 (imm ||| 0xFFFFE000) else toInt32 imm
  else if opcode = LUI ∨ opcode = AUIPC then
    toInt32 (inst &&& 0xFFFFF000)
  else if opcode = JAL then
    let bits19_12 := (inst >>> 12) &&& 0xFF
    let bit11 := (inst >>> 20) &&& 0x1
    let bits10_1 := (inst >>> 21) &&& 0x3FF
    let bit20 := (inst >>> 31) &&& 0x1
    let imm := (bit20 <<< 20) ||| (bits19_12 <<< 12) ||| (bit11 <<< 11) ||| (bits10_1 <<< 1)
    -- if (bit20) imm |= 0xFFE00000
    if bit20 ≠ 0 then toInt32 (imm ||| 0xFFE00000) else toInt32 imm
  else
    0

/-- The function `RISCV_CPU::Decode`: field extraction at the fixed bit
positions, then the immediate. -/
def Decode (inst : Nat) : DecodedInstruction :=
  let opcode := inst &&& OPCODE_MASK
  { opcode := opcode
    rd := (inst >>> RD_SHIFT) &&& REG_MASK
    funct3 := (inst >>> FUNCT3_SHIFT) &&& FUNCT3_MASK
    rs1 := (inst >>> RS1_SHIFT) &&& REG_MASK
    rs2 := (inst >>> RS2_SHIFT) &&& REG_MASK
    funct7 := (inst >>> FUNCT7_SHIFT) &&& FUNCT7_MASK
    imm := GenerateImmediate inst opcode }

/-! ## Memory access -/

/-- The read loop of `MemRead`, over the remaining values of the counter `i`:
`value |= ((uint32_t)Memory[addr + i]) << (i * 8)`, the index `addr + i`
computed in 32-bit unsigned arithmetic. -/
def MemReadLoop (mem : Nat → Nat) (addr : Nat) : List Nat → Nat → Option Nat
  | [], value => some value
  | i :: rest, value =>
    match memGet mem ((addr + i) % 2 ^ 32) with
    | none => none
    | some b => MemReadLoop mem addr rest (value ||| ((b <<< (i * 8)) % 2 ^ 32))

/-- The function `RISCV_CPU::MemRead`.  The bounds check compares the 32-bit
sum `addr + size` with `MEMORY_SIZE`.  The mask `0xFFFFFFFF << bit_width` is a
32-bit shift, its count taken modulo 32: for `bit_width = 32` the mask is
`0xFFFFFFFF`. -/
def MemRead (s : CPU) (addr : Nat) (size : Nat) (signed_extend : Bool) : Option Nat :=
  if (addr + size) % 2 ^ 32 > MEMORY_SIZE then
    some 0
  else
    match MemReadLoop s.Memory addr (List.range size) 0 with
    | none => none
    | some value =>
      if signed_extend then
        let bit_width := size * 8
        if (value >>> (bit_width - 1)) &&& 1 ≠ 0 then
          let mask := (0xFFFFFFFF <<< (bit_width % 32)) % 2 ^ 32
          some (value ||| mask)
        else some value
      else some value

/-- The write loop of `MemWrite`, over the remaining values of the counter `i`:
`Memory[addr + i] = (data >> (i * 8)) & 0xFF`. -/
def MemWriteLoop (addr : Nat) (data : Nat) : List Nat → (Nat → Nat) → Option (Nat → Nat)
  | [], mem => some mem
  | i :: rest, mem =>
    match memSet mem ((addr + i) % 2 ^ 32) ((data >>> (i * 8)) &&& 0xFF) with
    | none => none
    | some mem1 => MemWriteLoop addr data rest mem1

/-- The function `RISCV_CPU::MemWrite`; the result is the new memory. -/
def MemWrite (s : CPU) (addr : Nat) (data : Nat) (size : Nat) : Option (Nat → Nat) :=
  if (addr + size) % 2 ^ 32 > MEMORY_SIZE then
    some s.Memory
  else
    MemWriteLoop addr data (List.range size) s.Memory

/-- The function `RISCV_CPU::GetRegisterValue`, on a signed index. -/
def GetRegisterValue (s : CPU) (reg_index : Int) : Nat :=
  if reg_index < 0 ∨ reg_index > 31 then 0 else s.Registers reg_index.toNat

/-- The function `RISCV_CPU::GetPC`. -/
def GetPC (s : CPU) : Nat := s.PC

/-- The function `RISCV_CPU::FetchInstruction`: an unsigned word read at the PC. -/
def FetchInstruction (s : CPU) : Option Nat := MemRead s s.PC 4 false

/-- The loop of `LoadMemory` from index `i` on: a byte is stored only when
`startAddr + i` (a `size_t` sum, which does not wrap) is below `MEMORY_SIZE`. -/
def LoadMemoryLoop (startAddr : Nat) : List Nat → Nat → (Nat → Nat) → (Nat → Nat)
  | [], _, mem => mem
  | b :: rest, i, mem =>
    if startAddr + i < MEMORY_SIZE then
      LoadMemoryLoop startAddr rest (i + 1) (fun j => if j = startAddr + i then b % 256 else mem j)
    else
      LoadMemoryLoop startAddr rest (i + 1) mem

/-- The function `RISCV_CPU::LoadMemory`. -/
def LoadMemory (s : CPU) (programData : List Nat) (startAddr : Nat) : CPU :=
  { s with Memory := LoadMemoryLoop startAddr programData 0 s.Memory }

/-! ## Executor -/

/-- The `OP` / `OP_IMM` case of `Execute`: the inner `switch (inst.funct3)` that
computes `result` from the two operands.  The first assignment of the ADD branch
is overwritten by `result = val1 + val2` and is left out.  A `funct3` without a
`case` leaves `result` at its initial value 0. -/
def ExecuteALU (inst : DecodedInstruction) (val1 val2 : Int) : Int :=
  if inst.funct3 = 0 then
    if inst.opcode = OP ∧ inst.funct7 &&& 0x20 ≠ 0 then
      toInt32 (toUInt32 (val1 - val2))
    else
      toInt32 (toUInt32 (val1 + val2))
  else if inst.funct3 = 1 then
    toInt32 ((toUInt32 val1 <<< (toUInt32 val2 &&& 0x1F)) % 2 ^ 32)
  else if inst.funct3 = 2 then
    if val1 < val2 then 1 else 0
  else if inst.funct3 = 3 then
    if toUInt32 val1 < toUInt32 val2 then 1 else 0
  else if inst.funct3 = 4 then
    toInt32 (toUInt32 val1 ^^^ toUInt32 val2)
  else if inst.funct3 = 5 then
    if inst.funct7 &&& 0x20 ≠ 0 then
      Int.shiftRight val1 (toUInt32 val2 &&& 0x1F)
    else
      toInt32 (toUInt32 val1 >>> (toUInt32 val2 &&& 0x1F))
  else if inst.funct3 = 6 then
    toInt32 (toUInt32 val1 ||| toUInt32 val2)
  else if inst.funct3 = 7 then
    toInt32 (toUInt32 val1 &&& toUInt32 val2)
  else
    0

/-- The `BRANCH` case of `Execute`: the value of `take_branch`. -/
def ExecuteTakeBranch (funct3 : Nat) (val1 val2 : Int) : Bool :=
  if funct3 = 0 then decide (val1 = val2)
  else if funct3 = 1 then decide (val1 ≠ val2)
  else if funct3 = 4 then decide (val1 < val2)
  else if funct3 = 5 then decide (val1 ≥ val2)
  else if funct3 = 6 then decide (toUInt32 val1 < toUInt32 val2)
  else if funct3 = 7 then decide (toUInt32 val1 ≥ toUInt32 val2)
  else false

/-- The locals of `Execute` after its `switch (op)`, with the memory. -/
structure ExecuteLocals where
  result : Int
  write_to_reg : Bool
  next_pc : Nat
  Memory : Nat → Nat

/-- The `switch (op)` of `Execute`, started from `result = 0`,
`write_to_reg = true`, `next_pc = PC + 4`. -/
def ExecuteSwitch (s : CPU) (inst : DecodedInstruction) (val1 val2 : Int) :
    Option ExecuteLocals :=
  let next_pc := (s.PC + 4) % 2 ^ 32
  if inst.opcode = OP ∨ inst.opcode = OP_IMM then
    some { result := ExecuteALU inst val1 val2, write_to_reg := true,
           next_pc := next_pc, Memory := s.Memory }
  else if inst.opcode = BRANCH then
    some { result := 0, write_to_reg := false,
           next_pc := if ExecuteTakeBranch inst.funct3 val1 val2
                      then toUInt32 ((s.PC : Int) + inst.imm) else next_pc,
           Memory := s.Memory }
  else if inst.opcode = JAL then
    some { result := toInt32 ((s.PC + 4) % 2 ^ 32), write_to_reg := true,
           next_pc := toUInt32 ((s.PC : Int) + inst.imm), Memory := s.Memory }
  else if inst.opcode = JALR then
    some { result := toInt32 ((s.PC + 4) % 2 ^ 32), write_to_reg := true,
           next_pc := toUInt32 (val1 + inst.imm) &&& 0xFFFFFFFE, Memory := s.Memory }
  else if inst.opcode = LUI then
    some { result := inst.imm, write_to_reg := true, next_pc := next_pc, Memory := s.Memory }
  else if inst.opcode = AUIPC then
    some { result := toInt32 (toUInt32 ((s.PC : Int) + inst.imm)), write_to_reg := true,
           next_pc := next_pc, Memory := s.Memory }
  else if inst.opcode = LOAD then
    let addr := toUInt32 (val1 + inst.imm)
    let loaded : Option Nat :=
      if inst.funct3 = 0 then MemRead s addr 1 true
      else if inst.funct3 = 1 then MemRead s addr 2 true
      else if inst.funct3 = 2 then MemRead s addr 4 true
      else if inst.funct3 = 4 then MemRead s addr 1 false
      else if inst.funct3 = 5 then MemRead s addr 2 false
      else some 0
    match loaded with
    | none => none
    | some v =>
      some { result := toInt32 v, write_to_reg := true, next_pc := next_pc, Memory := s.Memory }
  else if inst.opcode = STORE then
    let addr := toUInt32 (val1 + inst.imm)
    let stored : Option (Nat → Nat) :=
      if inst.funct3 = 0 then MemWrite s addr (toUInt32 val2) 1
      else if inst.funct3 = 1 then MemWrite s addr (toUInt32 val2) 2
      else if inst.funct3 = 2 then MemWrite s addr (toUInt32 val2) 4
      else some s.Memory
    match stored with
    | none => none
    | some mem =>
      some { result := 0, write_to_reg := false, next_pc := next_pc, Memory := mem }
  else if inst.opcode = SYSTEM then
    some { result := 0, write_to_reg := false, next_pc := next_pc, Memory := s.Memory }
  else
    some { result := 0, write_to_reg := true, next_pc := next_pc, Memory := s.Memory }

/-- The operand selection of `Execute`: `val2` is `(int32_t)Registers[inst.rs2]`
for `OP`, `BRANCH` and `STORE`, and `inst.imm` otherwise. -/
def ExecuteOperand2 (s : CPU) (inst : DecodedInstruction) : Option Int :=
  if inst.opcode = OP ∨ inst.opcode = BRANCH ∨ inst.opcode = STORE then
    match regGet s.Registers inst.rs2 with
    | none => none
    | some r2 => some (toInt32 r2)
  else some inst.imm

/-- The function `RISCV_CPU::Execute`: operand selection
(`val1 = (int32_t)Registers[inst.rs1]`, then `val2`), the `switch (op)`,
write-back (`if (inst.rd != 0 && write_to_reg)`) and the PC update. -/
def Execute (s : CPU) (inst : DecodedInstruction) : Option CPU :=
  match regGet s.Registers inst.rs1 with
  | none => none
  | some r1 =>
    match ExecuteOperand2 s inst with
    | none => none
    | some val2 =>
      match ExecuteSwitch s inst (toInt32 r1) val2 with
      | none => none
      | some l =>
        if inst.rd ≠ 0 ∧ l.write_to_reg = true then
          match regSet s.Registers inst.rd (toUInt32 l.result) with
          | none => none
          | some regs => some { Registers := regs, PC := l.next_pc, Memory := l.Memory }
        else
          some { Registers := s.Registers, PC := l.next_pc, Memory := l.Memory }

/-- One cycle of `ARISCV_Processor::Step` on the core: `FetchInstruction`,
`Decode`, `Execute`. -/
def Step (s : CPU) : Option CPU :=
  match FetchInstruction s with
  | none => none
  | some inst => Execute s (Decode inst)

/-- The words of `fibonacciProgram` in `Programs.cpp`. -/
def fibonacciProgram : List Nat :=
  [0x00100093, 0x00000113, 0x001101B3, 0x00100133, 0x003000B3, 0xFF5FF06F]

/-- The function `Run_fibonacciProgram`: the four little-endian bytes of every
word, appended to `memoryBytes`. -/
def Run_fibonacciProgram (memoryBytes : List Nat) : List Nat :=
  fibonacciProgram.foldl
    (fun acc inst =>
      acc ++ [inst &&& 0xFF, (inst >>> 8) &&& 0xFF, (inst >>> 16) &&& 0xFF,
              (inst >>> 24) &&& 0xFF])
    memoryBytes

/-- The function `ARISCV_Processor::ResetAndLoad` on the core: a fresh CPU with
the Fibonacci program loaded at address 0. -/
def ResetAndLoad : CPU := LoadMemory CPU.init (Run_fibonacciProgram []) 0

/-- Iterated `Step`: `n` cycles, failing as soon as one of them fails. -/
def StepN : Nat → CPU → Option CPU
  | 0, s => some s
  | n + 1, s =>
    match Step s with
    | none => none
    | some s1 => StepN n s1

/-- The ten values of `OpcodeType`. -/
def supportedOpcodes : List Nat :=
  [LUI, AUIPC, JAL, JALR, BRANCH, LOAD, STORE, OP_IMM, OP, SYSTEM]

/-- An operation of a driver on the core: a `LoadMemory` call or one `Step`. -/
inductive Action where
  | load (programData : List Nat) (startAddr : Nat)
  | step

/-- The state after a sequence of driver operations, when every step of it is
defined. -/
def runActions : List Action → CPU → Option CPU
  | [], s => some s
  | Action.load programData startAddr :: rest, s =>
    runActions rest (LoadMemory s programData startAddr)
  | Action.step :: rest, s =>
    match Step s with
    | none => none
    | some s1 => runActions rest s1

/-- The memory image of the two-instruction program `ADDI x1, x0, 7` followed
by the word `0x00000080` (opcode `0x00`, `rd = 1`), loaded at address 0. -/
def illegalProgram : CPU :=
  LoadMemory CPU.init [0x93, 0x00, 0x70, 0x00, 0x80, 0x00, 0x00, 0x00] 0

/-- The memory image of the one-instruction program `LW x1, -2(x0)` (word
`0xFFE02083`), loaded at address 0: its effective address is `0xFFFFFFFE`. -/
def wrapProgram : CPU :=
  LoadMemory CPU.init [0x83, 0x20, 0xE0, 0xFF] 0

/-! ## Disassembler -/

/-- The rendering of a `%d` argument of `FString::Printf`: signed decimal. -/
def formatD (i : Int) : String := toString i

/-- The rendering of a `%X` argument of `FString::Printf`: the 32-bit pattern in
upper-case hexadecimal. -/
def formatX (i : Int) : String :=
  String.mk ((Nat.toDigits 16 (toUInt32 i)).map Char.toUpper)

/-- The function `RISCV_CPU::Disassemble`.  `OpName` starts as `UNKNOWN` and
keeps that value when no `case` of the inner `switch` matches; an unsigned
field passed to `%d` is printed as the `int` with the same bits. -/
def Disassemble (inst : DecodedInstruction) : String :=
  if inst.opcode = OP then
    let OpName :=
      if inst.funct7 = 0x20 then "SUB"
      else if inst.funct3 = 0 then "ADD"
      else if inst.funct3 = 1 then "SLL"
      else if inst.funct3 = 2 then "SLT"
      else if inst.funct3 = 4 then "XOR"
      else if inst.funct3 = 5 then (if inst.funct7 = 0x20 then "SRA" else "SRL")
      else if inst.funct3 = 6 then "OR"
      else if inst.funct3 = 7 then "AND"
      else "UNKNOWN"
    OpName ++ " x" ++ formatD (toInt32 inst.rd) ++ ", x" ++ formatD (toInt32 inst.rs1)
      ++ ", x" ++ formatD (toInt32 inst.rs2)
  else if inst.opcode = OP_IMM then
    let OpName :=
      if inst.funct3 = 0 then "ADDI"
      else if inst.funct3 = 4 then "XORI"
      else if inst.funct3 = 6 then "ORI"
      else if inst.funct3 = 7 then "ANDI"
      else if inst.funct3 = 1 then "SLLI"
      else if inst.funct3 = 5 then (if inst.funct7 = 0x20 then "SRAI" else "SRLI")
      else "UNKNOWN"
    OpName ++ " x" ++ formatD (toInt32 inst.rd) ++ ", x" ++ formatD (toInt32 inst.rs1)
      ++ ", " ++ formatD inst.imm
  else if inst.opcode = JAL then
    "JAL x" ++ formatD (toInt32 inst.rd) ++ ", " ++ formatD inst.imm
  else if inst.opcode = BRANCH then
    let OpName :=
      if inst.funct3 = 0 then "BEQ"
      else if inst.funct3 = 1 then "BNE"
      else if inst.funct3 = 4 then "BLT"
      else if inst.funct3 = 5 then "BGE"
      else "UNKNOWN"
    OpName ++ " x" ++ formatD (toInt32 inst.rs1) ++ ", x" ++ formatD (toInt32 inst.rs2)
      ++ ", " ++ formatD inst.imm
  else if inst.opcode = LUI then
    "LUI x" ++ formatD (toInt32 inst.rd) ++ ", 0x" ++ formatX inst.imm
  else if inst.opcode = AUIPC then
    "AUIPC x" ++ formatD (toInt32 inst.rd) ++ ", " ++ formatD inst.imm
  else
    "UNKNOWN INST"

/-! ## Reference notions of the specification -/

/-- The Fibonacci numbers: `Fib 0 = 0`, `Fib 1 = Fib 2 = 1`. -/
def Fib : Nat → Nat
  | 0 => 0
  | 1 => 1
  | n + 2 => Fib n + Fib (n + 1)

/-- The branch condition the specification attaches to `funct3`, on the two
register values: 0 equal, 1 not equal, 4 signed less-than, 5 signed
greater-or-equal, 6 unsigned less-than, 7 unsigned greater-or-equal; any other
`funct3` never branches. -/
def branchCondition (funct3 : Nat) (a b : Nat) : Prop :=
  (funct3 = 0 ∧ a = b) ∨ (funct3 = 1 ∧ a ≠ b) ∨
  (funct3 = 4 ∧ toInt32 a < toInt32 b) ∨ (funct3 = 5 ∧ toInt32 a ≥ toInt32 b) ∨
  (funct3 = 6 ∧ a < b) ∨ (funct3 = 7 ∧ a ≥ b)

/-- A state at PC 100 with `x1 = x2 = 5`. -/
def branchStateEq : CPU :=
  { Registers := fun i => if i = 1 then 5 else if i = 2 then 5 else 0, PC := 100,
    Memory := fun _ => 0 }

/-- A state at PC 100 with `x1 = 5`, `x2 = 6`. -/
def branchStateNe : CPU :=
  { Registers := fun i => if i = 1 then 5 else if i = 2 then 6 else 0, PC := 100,
    Memory := fun _ => 0 }

/-- A state at PC 100 with `x5 = 0x1001`. -/
def jalrState : CPU :=
  { Registers := fun i => if i = 5 then 0x1001 else 0, PC := 100, Memory := fun _ => 0 }

/-- A state at PC 0 with `x1 = 7`, `x2 = 9`. -/
def aluState : CPU :=
  { Registers := fun i => if i = 1 then 7 else if i = 2 then 9 else 0, PC := 0,
    Memory := fun _ => 0 }

/-- A state at PC 0 with `x1 = 0x80000010`. -/
def shiftState : CPU :=
  { Registers := fun i => if i = 1 then 0x80000010 else 0, PC := 0, Memory := fun _ => 0 }

/-- The memory image of the program `LUI x1, 0x80000`; `SW x1, 256(x0)`;
`LW x2, 256(x0)` (words `0x800000B7`, `0x10102023`, `0x10002103`), loaded at
address 0. -/
def lwProgram : CPU :=
  LoadMemory CPU.init
    [0xB7, 0x00, 0x00, 0x80, 0x23, 0x20, 0x10, 0x10, 0x03, 0x21, 0x00, 0x10] 0

/-- The driver operations that load the program of `lwProgram` at address 0 and
step three times: the third step is the `LW` of the word `0x80000000`. -/
def lwActions : List Action :=
  [Action.load [0xB7, 0x00, 0x00, 0x80, 0x23, 0x20, 0x10, 0x10, 0x03, 0x21, 0x00, 0x10] 0,
   Action.step, Action.step, Action.step]

/-- The state at the head of the loop of the Fibonacci program after `k`
iterations. -/
def FibInv (k : Nat) (s : CPU) : Prop :=
  s.PC = 8 ∧ s.Memory = ResetAndLoad.Memory ∧ s.Registers 0 = 0 ∧
  s.Registers 1 = Fib (k + 1) % 2 ^ 32 ∧ s.Registers 2 = Fib k % 2 ^ 32

/-- The width `MemWrite` is called with for a store `funct3`. -/
def storeWidth (funct3 : Nat) : Nat :=
  if funct3 = 0 then 1 else if funct3 = 1 then 2 else 4

/-- The word a decoded record packs back into. -/
def packFields (d : DecodedInstruction) : Nat :=
  (d.funct7 <<< 25) ||| (d.rs2 <<< 20) ||| (d.rs1 <<< 15) ||| (d.funct3 <<< 12)
    ||| (d.rd <<< 7) ||| d.opcode

/-- A state at PC 0 with `x1 = 0x104`, `x2 = 0xDEADBEEF`. -/
def storeState : CPU :=
  { Registers := fun i => if i = 1 then 0x104 else if i = 2 then 0xDEADBEEF else 0, PC := 0,
    Memory := fun _ => 0 }

/-- A state at PC 0 with `x1 = 0x80000010`, `x2 = 4`. -/
def sraState : CPU :=
  { Registers := fun i => if i = 1 then 0x80000010 else if i = 2 then 4 else 0, PC := 0,
    Memory := fun _ => 0 }

/-! ## Instruction words of the base formats

The encodings the round-trip properties start from.  They follow the field
layout of the RISC-V base formats as the specification lists it; they are not
part of the simulator. -/

/-- The `n` bits from position `lo` upwards of the two's-complement pattern of
`imm`, that is `imm[lo + n - 1 : lo]`. -/
def immField (imm : Int) (lo n : Nat) : Nat := (toUInt32 imm >>> lo) % 2 ^ n

/-- The B-type word: `imm[12]` at bit 31, `imm[10:5]` at bits 30:25, `rs2` at
24:20, `rs1` at 19:15, `funct3` at 14:12, `imm[4:1]` at bits 11:8, `imm[11]` at
bit 7, opcode `0x63`. -/
def encodeB (imm : Int) (rs1 rs2 funct3 : Nat) : Nat :=
  (immField imm 12 1 <<< 31) ||| (immField imm 5 6 <<< 25) ||| (rs2 <<< 20) ||| (rs1 <<< 15)
    ||| (funct3 <<< 12) ||| (immField imm 1 4 <<< 8) ||| (immField imm 11 1 <<< 7) ||| 0x63

/-- The J-type word: `imm[20]` at bit 31, `imm[10:1]` at bits 30:21, `imm[11]`
at bit 20, `imm[19:12]` at bits 19:12, `rd` at 11:7, opcode `0x6F`. -/
def encodeJ (imm : Int) (rd : Nat) : Nat :=
  (immField imm 20 1 <<< 31) ||| (immField imm 1 10 <<< 21) ||| (immField imm 11 1 <<< 20)
    ||| (immField imm 12 8 <<< 12) ||| (rd <<< 7) ||| 0x6F

/-- The I-type word
`((imm mod 4096) << 20) | rs1 << 15 | funct3 << 12 | rd << 7 | opcode`. -/
def encodeI (opcode : Nat) (imm : Int) (rd rs1 funct3 : Nat) : Nat :=
  ((imm % 4096).toNat <<< 20) ||| (rs1 <<< 15) ||| (funct3 <<< 12) ||| (rd <<< 7) ||| opcode

/-- The S-type word: `imm[11:5]` at bits 31:25, `rs2` at 24:20, `rs1` at 19:15,
`funct3` at 14:12, `imm[4:0]` at bits 11:7, opcode `0x23`. -/
def encodeS (imm : Int) (rs1 rs2 funct3 : Nat) : Nat :=
  (immField imm 5 7 <<< 25) ||| (rs2 <<< 20) ||| (rs1 <<< 15) ||| (funct3 <<< 12)
    ||| (immField imm 0 5 <<< 7) ||| 0x23

/-! ## Bit-level arithmetic

The masks, shifts and disjoint unions of the decoder, as division, remainder and
sum. -/

theorem or_eq_add_of_mod (k a b : Nat) (ha : a % 2 ^ k = 0) (hb : b < 2 ^ k) :
    a ||| b = a + b := by
  have hc : a = 2 ^ k * (a / 2 ^ k) := by
    have := Nat.div_add_mod a (2 ^ k)
    omega
  rw [hc]
  exact (Nat.mul_add_lt_is_or hb (a / 2 ^ k)).symm

theorem and_0x1 (x : Nat) : x &&& 0x1 = x % 2 := Nat.and_pow_two_sub_one_eq_mod x 1
theorem and_0x7 (x : Nat) : x &&& 0x07 = x % 8 := Nat.and_pow_two_sub_one_eq_mod x 3
theorem and_0xF (x : Nat) : x &&& 0xF = x % 16 := Nat.and_pow_two_sub_one_eq_mod x 4
theorem and_0x1F (x : Nat) : x &&& 0x1F = x % 32 := Nat.and_pow_two_sub_one_eq_mod x 5
theorem and_0x3F (x : Nat) : x &&& 0x3F = x % 64 := Nat.and_pow_two_sub_one_eq_mod x 6
theorem and_0x7F (x : Nat) : x &&& 0x7F = x % 128 := Nat.and_pow_two_sub_one_eq_mod x 7
theorem and_0xFF (x : Nat) : x &&& 0xFF = x % 256 := Nat.and_pow_two_sub_one_eq_mod x 8
theorem and_0x3FF (x : Nat) : x &&& 0x3FF = x % 1024 := Nat.and_pow_two_sub_one_eq_mod x 10

/-- A single-bit test `x & 2^k` is non-zero exactly when bit `k` of `x` is 1. -/
theorem and_two_pow_ne_zero (x k : Nat) : x &&& 2 ^ k ≠ 0 ↔ x / 2 ^ k % 2 = 1 := by
  constructor
  · intro h
    obtain ⟨i, hi⟩ := Nat.ne_zero_implies_bit_true h
    rw [Nat.testBit_and, Bool.and_eq_true, Nat.testBit_two_pow] at hi
    obtain ⟨h1, h2⟩ := hi
    have hki : k = i := of_decide_eq_true h2
    subst hki
    rw [Nat.testBit_to_div_mod] at h1
    exact of_decide_eq_true h1
  · intro h h0
    have h1 : (x &&& 2 ^ k).testBit k = true := by
      rw [Nat.testBit_and, Nat.testBit_two_pow_self, Bool.and_true, Nat.testBit_to_div_mod]
      exact decide_eq_true h
    rw [h0] at h1
    simp at h1

theorem encodeS_eq (imm : Int) (rs1 rs2 funct3 : Nat) (h1 : rs1 < 32) (h2 : rs2 < 32)
    (h3 : funct3 < 8) :
    encodeS imm rs1 rs2 funct3 =
      immField imm 5 7 * 2 ^ 25 + rs2 * 2 ^ 20 + rs1 * 2 ^ 15 + funct3 * 2 ^ 12
        + immField imm 0 5 * 2 ^ 7 + 0x23 := by
  have ha : immField imm 5 7 < 128 := Nat.mod_lt _ (by norm_num)
  have hb : immField imm 0 5 < 32 := Nat.mod_lt _ (by norm_num)
  unfold encodeS
  simp only [Nat.shiftLeft_eq]
  rw [or_eq_add_of_mod 25 (immField imm 5 7 * 2 ^ 25) _ (by omega) (by omega),
    or_eq_add_of_mod 20 (_ + _) _ (by omega) (by omega),
    or_eq_add_of_mod 15 (_ + _) _ (by omega) (by omega),
    or_eq_add_of_mod 12 (_ + _) _ (by omega) (by omega),
    or_eq_add_of_mod 7 (_ + _) _ (by omega) (by omega)]

theorem toUInt32_of_range (imm : Int) (h : -2 ^ 31 ≤ imm ∧ imm < 2 ^ 31) :
    ((toUInt32 imm : Nat) : Int) = if imm < 0 then imm + 2 ^ 32 else imm := by
  unfold toUInt32
  split <;> omega

/-- Sign extension of a 12-bit pattern with `|= 0xFFFFF800` (the mask overlaps
the sign bit 11). -/
theorem or_0xFFFFF800 (u : Nat) (h : u < 4096) (hb : 2048 ≤ u) :
    u ||| 0xFFFFF800 = u + 0xFFFFF000 := by
  have hlt : u % 2048 < 2 ^ 11 := by omega
  have hlit : (2 ^ 11 * 1 ||| 0xFFFFF800 : Nat) = 2 ^ 11 * 2097151 := by decide
  calc u ||| 0xFFFFF800
      = (2 ^ 11 * 1 + u % 2048) ||| 0xFFFFF800 := by
        congr 1; omega
    _ = (u % 2048 ||| 2 ^ 11 * 1) ||| 0xFFFFF800 := by
        rw [Nat.mul_add_lt_is_or hlt 1, Nat.or_comm (2 ^ 11 * 1) (u % 2048)]
    _ = u % 2048 ||| 2 ^ 11 * 2097151 := by rw [Nat.or_assoc, hlit]
    _ = 2 ^ 11 * 2097151 + u % 2048 := by
        rw [Nat.or_comm, Nat.mul_add_lt_is_or hlt]
    _ = u + 0xFFFFF000 := by omega

/-- The S-format immediate in arithmetic form. -/
theorem GenerateImmediate_STORE (w : Nat) :
    GenerateImmediate w STORE =
      if 2048 ≤ w / 2 ^ 25 % 128 * 32 + w / 2 ^ 7 % 32
      then ((w / 2 ^ 25 % 128 * 32 + w / 2 ^ 7 % 32 : Nat) : Int) - 4096
      else ((w / 2 ^ 25 % 128 * 32 + w / 2 ^ 7 % 32 : Nat) : Int) := by
  have hor : ((w >>> 25 &&& 0x7F) <<< 5) ||| (w >>> 7 &&& 0x1F)
      = w / 2 ^ 25 % 128 * 32 + w / 2 ^ 7 % 32 := by
    simp only [Nat.shiftRight_eq_div_pow, and_0x1F, and_0x7F, Nat.shiftLeft_eq]
    rw [or_eq_add_of_mod 5 _ _ (by omega) (by omega)]
  have hbit := and_two_pow_ne_zero (w / 2 ^ 25 % 128 * 32 + w / 2 ^ 7 % 32) 11
  simp only [GenerateImmediate, JALR, LOAD, OP_IMM, SYSTEM, STORE, hor]
  have hu : w / 2 ^ 25 % 128 * 32 + w / 2 ^ 7 % 32 < 4096 := by omega
  generalize w / 2 ^ 25 % 128 * 32 + w / 2 ^ 7 % 32 = u at *
  by_cases hs : 2048 ≤ u
  · have h1 : u &&& 2048 ≠ 0 := hbit.mpr (by omega)
    simp [h1, hs, or_0xFFFFF800 u hu hs, toInt32]
    omega
  · have h1 : ¬ (u &&& 2048 ≠ 0) := fun hc => by have := hbit.mp hc; omega
    have h2 : u &&& 2048 = 0 := by simpa using h1
    simp [h2, hs, toInt32]
    omega

/-- The B-format immediate in arithmetic form. -/
theorem GenerateImmediate_BRANCH (w : Nat) :
    GenerateImmediate w BRANCH =
      if w / 2 ^ 31 % 2 = 1
      then ((w / 2 ^ 31 % 2 * 4096 + w / 2 ^ 7 % 2 * 2048 + w / 2 ^ 25 % 64 * 32
              + w / 2 ^ 8 % 16 * 2 : Nat) : Int) - 8192
      else ((w / 2 ^ 31 % 2 * 4096 + w / 2 ^ 7 % 2 * 2048 + w / 2 ^ 25 % 64 * 32
              + w / 2 ^ 8 % 16 * 2 : Nat) : Int) := by
  have hor : ((w >>> 31 &&& 0x1) <<< 12) ||| ((w >>> 7 &&& 0x1) <<< 11)
        ||| ((w >>> 25 &&& 0x3F) <<< 5) ||| ((w >>> 8 &&& 0xF) <<< 1)
      = w / 2 ^ 31 % 2 * 4096 + w / 2 ^ 7 % 2 * 2048 + w / 2 ^ 25 % 64 * 32
          + w / 2 ^ 8 % 16 * 2 := by
    simp only [Nat.shiftRight_eq_div_pow, and_0x1, and_0x3F, and_0xF, Nat.shiftLeft_eq]
    rw [or_eq_add_of_mod 12 (w / 2 ^ 31 % 2 * 2 ^ 12) _ (by omega) (by omega),
      or_eq_add_of_mod 11 (_ + _) _ (by omega) (by omega),
      or_eq_add_of_mod 5 (_ + _) _ (by omega) (by omega)]
  have hbit : w >>> 31 &&& 0x1 = w / 2 ^ 31 % 2 := by
    simp only [Nat.shiftRight_eq_div_pow, and_0x1]
  simp only [GenerateImmediate, JALR, LOAD, OP_IMM, SYSTEM, STORE, BRANCH, hor]
  simp only [hbit]
  have hu : w / 2 ^ 31 % 2 * 4096 + w / 2 ^ 7 % 2 * 2048 + w / 2 ^ 25 % 64 * 32
          + w / 2 ^ 8 % 16 * 2 < 8192 := by omega
  generalize w / 2 ^ 31 % 2 * 4096 + w / 2 ^ 7 % 2 * 2048 + w / 2 ^ 25 % 64 * 32
          + w / 2 ^ 8 % 16 * 2 = u at *
  have hm : u ||| 0xFFFFE000 = 0xFFFFE000 + u := by
    rw [Nat.or_comm, or_eq_add_of_mod 13 _ _ (by omega) (by omega)]
  by_cases hs : w / 2 ^ 31 % 2 = 1
  · simp [hs, hm, toInt32]
    omega
  · have h0 : w / 2 ^ 31 % 2 = 0 := by omega
    simp [h0, toInt32]
    omega

/-- The J-format immediate in arithmetic form. -/
theorem GenerateImmediate_JAL (w : Nat) :
    GenerateImmediate w JAL =
      if w / 2 ^ 31 % 2 = 1
      then ((w / 2 ^ 31 % 2 * 1048576 + w / 2 ^ 12 % 256 * 4096 + w / 2 ^ 20 % 2 * 2048
              + w / 2 ^ 21 % 1024 * 2 : Nat) : Int) - 2097152
      else ((w / 2 ^ 31 % 2 * 1048576 + w / 2 ^ 12 % 256 * 4096 + w / 2 ^ 20 % 2 * 2048
              + w / 2 ^ 21 % 1024 * 2 : Nat) : Int) := by
  have hor : ((w >>> 31 &&& 0x1) <<< 20) ||| ((w >>> 12 &&& 0xFF) <<< 12)
        ||| ((w >>> 20 &&& 0x1) <<< 11) ||| ((w >>> 21 &&& 0x3FF) <<< 1)
      = w / 2 ^ 31 % 2 * 1048576 + w / 2 ^ 12 % 256 * 4096 + w / 2 ^ 20 % 2 * 2048
              + w / 2 ^ 21 % 1024 * 2 := by
    simp only [Nat.shiftRight_eq_div_pow, and_0x1, and_0xFF, and_0x3FF, Nat.shiftLeft_eq]
    rw [or_eq_add_of_mod 20 (w / 2 ^ 31 % 2 * 2 ^ 20) _ (by omega) (by omega),
      or_eq_add_of_mod 12 (_ + _) _ (by omega) (by omega),
      or_eq_add_of_mod 11 (_ + _) _ (by omega) (by omega)]
  have hbit : w >>> 31 &&& 0x1 = w / 2 ^ 31 % 2 := by
    simp only [Nat.shiftRight_eq_div_pow, and_0x1]
  simp only [GenerateImmediate, JALR, LOAD, OP_IMM, SYSTEM, STORE, BRANCH, LUI, AUIPC, JAL,
    hor]
  simp only [hbit]
  have hu : w / 2 ^ 31 % 2 * 1048576 + w / 2 ^ 12 % 256 * 4096 + w / 2 ^ 20 % 2 * 2048
              + w / 2 ^ 21 % 1024 * 2 < 2097152 := by omega
  generalize w / 2 ^ 31 % 2 * 1048576 + w / 2 ^ 12 % 256 * 4096 + w / 2 ^ 20 % 2 * 2048
              + w / 2 ^ 21 % 1024 * 2 = u at *
  have hm : u ||| 0xFFE00000 = 0xFFE00000 + u := by
    rw [Nat.or_comm, or_eq_add_of_mod 21 _ _ (by omega) (by omega)]
  by_cases hs : w / 2 ^ 31 % 2 = 1
  · simp [hs, hm, toInt32]
    omega
  · have h0 : w / 2 ^ 31 % 2 = 0 := by omega
    simp [h0, toInt32]
    omega

/-- The I-format immediate in arithmetic form: the signed word divided by
`2 ^ 20`, rounding down. -/
theorem GenerateImmediate_I (w opcode : Nat)
    (h : opcode = JALR ∨ opcode = LOAD ∨ opcode = OP_IMM ∨ opcode = SYSTEM) :
    GenerateImmediate w opcode = toInt32 w / 2 ^ 20 := by
  unfold GenerateImmediate
  rw [if_pos h]
  show (toInt32 w) >>> (20 : Nat) = _
  rw [Int.shiftRight_eq_div_pow]
  norm_num

theorem immField_lt (imm : Int) (lo n : Nat) : immField imm lo n < 2 ^ n :=
  Nat.mod_lt _ (Nat.pos_pow_of_pos n (by decide))

theorem encodeB_eq (imm : Int) (rs1 rs2 funct3 : Nat) (h1 : rs1 < 32) (h2 : rs2 < 32)
    (h3 : funct3 < 8) :
    encodeB imm rs1 rs2 funct3 =
      immField imm 12 1 * 2 ^ 31 + immField imm 5 6 * 2 ^ 25 + rs2 * 2 ^ 20 + rs1 * 2 ^ 15
        + funct3 * 2 ^ 12 + immField imm 1 4 * 2 ^ 8 + immField imm 11 1 * 2 ^ 7 + 0x63 := by
  have ha := immField_lt imm 12 1
  have hb := immField_lt imm 5 6
  have hc := immField_lt imm 1 4
  have hd := immField_lt imm 11 1
  unfold encodeB
  simp only [Nat.shiftLeft_eq]
  rw [or_eq_add_of_mod 31 (immField imm 12 1 * 2 ^ 31) _ (by omega) (by omega),
    or_eq_add_of_mod 25 (_ + _) _ (by omega) (by omega),
    or_eq_add_of_mod 20 (_ + _) _ (by omega) (by omega),
    or_eq_add_of_mod 15 (_ + _) _ (by omega) (by omega),
    or_eq_add_of_mod 12 (_ + _) _ (by omega) (by omega),
    or_eq_add_of_mod 8 (_ + _) _ (by omega) (by omega),
    or_eq_add_of_mod 7 (_ + _) _ (by omega) (by omega)]

theorem encodeJ_eq (imm : Int) (rd : Nat) (h1 : rd < 32) :
    encodeJ imm rd =
      immField imm 20 1 * 2 ^ 31 + immField imm 1 10 * 2 ^ 21 + immField imm 11 1 * 2 ^ 20
        + immField imm 12 8 * 2 ^ 12 + rd * 2 ^ 7 + 0x6F := by
  have ha := immField_lt imm 20 1
  have hb := immField_lt imm 1 10
  have hc := immField_lt imm 11 1
  have hd := immField_lt imm 12 8
  unfold encodeJ
  simp only [Nat.shiftLeft_eq]
  rw [or_eq_add_of_mod 31 (immField imm 20 1 * 2 ^ 31) _ (by omega) (by omega),
    or_eq_add_of_mod 21 (_ + _) _ (by omega) (by omega),
    or_eq_add_of_mod 20 (_ + _) _ (by omega) (by omega),
    or_eq_add_of_mod 12 (_ + _) _ (by omega) (by omega),
    or_eq_add_of_mod 7 (_ + _) _ (by omega) (by omega)]

theorem encodeI_eq (opcode : Nat) (imm : Int) (rd rs1 funct3 : Nat) (h0 : opcode < 128)
    (h1 : rd < 32) (h2 : rs1 < 32) (h3 : funct3 < 8) :
    encodeI opcode imm rd rs1 funct3 =
      (imm % 4096).toNat * 2 ^ 20 + rs1 * 2 ^ 15 + funct3 * 2 ^ 12 + rd * 2 ^ 7 + opcode := by
  unfold encodeI
  simp only [Nat.shiftLeft_eq]
  rw [or_eq_add_of_mod 20 ((imm % 4096).toNat * 2 ^ 20) _ (by omega) (by omega),
    or_eq_add_of_mod 15 (_ + _) _ (by omega) (by omega),
    or_eq_add_of_mod 12 (_ + _) _ (by omega) (by omega),
    or_eq_add_of_mod 7 (_ + _) _ (by omega) (by omega)]

/-- The fields `Decode` extracts from a word laid out as a sum of seven
disjoint fields above a 7-bit opcode. -/
theorem word_fields (f31 f25 f20 f15 f12 f8 f7 op w : Nat)
    (h31 : f31 < 2) (h25 : f25 < 64) (h20 : f20 < 32) (h15 : f15 < 32) (h12 : f12 < 8)
    (h8 : f8 < 16) (h7 : f7 < 2) (hop : op < 128)
    (hw : f31 * 2 ^ 31 + f25 * 2 ^ 25 + f20 * 2 ^ 20 + f15 * 2 ^ 15 + f12 * 2 ^ 12
        + f8 * 2 ^ 8 + f7 * 2 ^ 7 + op = w) :
    w / 2 ^ 31 % 2 = f31 ∧ w / 2 ^ 25 % 64 = f25 ∧ w / 2 ^ 20 % 32 = f20 ∧
    w / 2 ^ 15 % 32 = f15 ∧ w / 2 ^ 12 % 8 = f12 ∧ w / 2 ^ 8 % 16 = f8 ∧
    w / 2 ^ 7 % 2 = f7 ∧ w % 128 = op ∧ w < 2 ^ 32 := by
  refine ⟨?_, ?_, ?_, ?_, ?_, ?_, ?_, ?_, ?_⟩ <;> omega

/-- The fields of a word laid out as in the J format. -/
theorem word_fields_J (f31 f21 f20 f12 f7 op w : Nat)
    (h31 : f31 < 2) (h21 : f21 < 1024) (h20 : f20 < 2) (h12 : f12 < 256) (h7 : f7 < 32)
    (hop : op < 128)
    (hw : f31 * 2 ^ 31 + f21 * 2 ^ 21 + f20 * 2 ^ 20 + f12 * 2 ^ 12 + f7 * 2 ^ 7 + op = w) :
    w / 2 ^ 31 % 2 = f31 ∧ w / 2 ^ 21 % 1024 = f21 ∧ w / 2 ^ 20 % 2 = f20 ∧
    w / 2 ^ 12 % 256 = f12 ∧ w / 2 ^ 7 % 32 = f7 ∧ w % 128 = op := by
  refine ⟨?_, ?_, ?_, ?_, ?_, ?_⟩ <;> omega

/-- The fields of a word laid out as in the I format. -/
theorem word_fields_I (f20 f15 f12 f7 op w : Nat)
    (h15 : f15 < 32) (h12 : f12 < 8) (h7 : f7 < 32) (hop : op < 128)
    (hw : f20 * 2 ^ 20 + f15 * 2 ^ 15 + f12 * 2 ^ 12 + f7 * 2 ^ 7 + op = w) :
    w / 2 ^ 20 = f20 ∧ w / 2 ^ 15 % 32 = f15 ∧ w / 2 ^ 12 % 8 = f12 ∧
    w / 2 ^ 7 % 32 = f7 ∧ w % 128 = op := by
  refine ⟨?_, ?_, ?_, ?_, ?_⟩ <;> omega

/-! ## The executor on unsupported opcodes and on x0 -/

theorem ExecuteSwitch_unsupported (s : CPU) (inst : DecodedInstruction) (val1 val2 : Int)
    (hop : inst.opcode ∉ supportedOpcodes) :
    ExecuteSwitch s inst val1 val2 =
      some { result := 0, write_to_reg := true, next_pc := (s.PC + 4) % 2 ^ 32,
             Memory := s.Memory } := by
  simp only [supportedOpcodes, List.mem_cons, List.mem_singleton, not_or, List.mem_nil_iff,
    or_false] at hop
  obtain ⟨h1, h2, h3, h4, h5, h6, h7, h8, h9, h10⟩ := hop
  simp [ExecuteSwitch, h1, h2, h3, h4, h5, h6, h7, h8, h9, h10]

/-- What `Execute` does with an opcode outside `OpcodeType`: the PC advances by
4, memory is kept, and the initial `result = 0` is written to `rd` when
`rd != 0`, because `write_to_reg` is still `true`. -/
theorem Execute_unsupported (s : CPU) (inst : DecodedInstruction)
    (hop : inst.opcode ∉ supportedOpcodes) (h1 : inst.rs1 < 32) (hd : inst.rd < 32) :
    Execute s inst =
      some { Registers := if inst.rd ≠ 0 then (fun j => if j = inst.rd then 0 else s.Registers j)
                          else s.Registers,
             PC := (s.PC + 4) % 2 ^ 32, Memory := s.Memory } := by
  have hsw := fun v1 v2 => ExecuteSwitch_unsupported s inst v1 v2 hop
  simp only [supportedOpcodes, List.mem_cons, List.mem_singleton, not_or, List.mem_nil_iff,
    or_false] at hop
  obtain ⟨-, -, -, -, h5, -, h7, -, h9, -⟩ := hop
  have ho : ExecuteOperand2 s inst = some inst.imm := by
    simp [ExecuteOperand2, h5, h7, h9]
  unfold Execute
  simp only [regGet, h1, if_true, ho, hsw]
  by_cases h0 : inst.rd = 0
  · simp [h0]
  · simp [h0, regSet, hd, toUInt32]

/-- The shape of every defined result of `Execute`: the register file is the
old one, possibly with `rd` (not x0) overwritten. -/
theorem Execute_Registers (s s1 : CPU) (inst : DecodedInstruction)
    (h : Execute s inst = some s1) :
    s1.Registers = s.Registers ∨
      (inst.rd ≠ 0 ∧ ∃ v, s1.Registers = fun j => if j = inst.rd then v else s.Registers j) := by
  unfold Execute at h
  cases h1 : regGet s.Registers inst.rs1 with
  | none => rw [h1] at h; exact absurd h (by simp)
  | some r1 =>
    rw [h1] at h
    simp only [] at h
    cases ho : ExecuteOperand2 s inst with
    | none => rw [ho] at h; exact absurd h (by simp)
    | some val2 =>
      rw [ho] at h
      simp only [] at h
      cases hsw : ExecuteSwitch s inst (toInt32 r1) val2 with
      | none => rw [hsw] at h; exact absurd h (by simp)
      | some l =>
        rw [hsw] at h
        simp only [] at h
        by_cases hw : inst.rd ≠ 0 ∧ l.write_to_reg = true
        · rw [if_pos hw] at h
          unfold regSet at h
          by_cases hd : inst.rd < 32
          · rw [if_pos hd] at h
            simp only [Option.some.injEq] at h
            exact Or.inr ⟨hw.1, _, by rw [← h]⟩
          · rw [if_neg hd] at h
            exact absurd h (by simp)
        · rw [if_neg hw] at h
          simp only [Option.some.injEq] at h
          exact Or.inl (by rw [← h])

theorem Execute_x0 (s s1 : CPU) (inst : DecodedInstruction) (h : Execute s inst = some s1) :
    s1.Registers 0 = s.Registers 0 := by
  rcases Execute_Registers s s1 inst h with h1 | ⟨hd, v, h1⟩
  · rw [h1]
  · rw [h1]
    have : (0 : Nat) ≠ inst.rd := fun hc => hd hc.symm
    simp [this]

theorem LoadMemory_Registers (s : CPU) (d : List Nat) (a : Nat) :
    (LoadMemory s d a).Registers = s.Registers := rfl

theorem runActions_x0 (acts : List Action) (s s1 : CPU) (h0 : s.Registers 0 = 0)
    (h : runActions acts s = some s1) : s1.Registers 0 = 0 := by
  induction acts generalizing s with
  | nil =>
    simp only [runActions, Option.some.injEq] at h
    rw [← h]; exact h0
  | cons a rest ih =>
    cases a with
    | load d addr =>
      simp only [runActions] at h
      exact ih (LoadMemory s d addr) h0 h
    | step =>
      simp only [runActions] at h
      cases hs : Step s with
      | none => rw [hs] at h; exact absurd h (by simp)
      | some s2 =>
        rw [hs] at h
        refine ih s2 ?_ h
        unfold Step at hs
        cases hf : FetchInstruction s with
        | none => rw [hf] at hs; exact absurd hs (by simp)
        | some w =>
          rw [hf] at hs
          rw [Execute_x0 s s2 _ hs]; exact h0

/-! ## Memory access -/

theorem MEMORY_SIZE_eq : MEMORY_SIZE = 1048576 := rfl

theorem add_or_eq_of_mod (k a b : Nat) (ha : a < 2 ^ k) (hb : b % 2 ^ k = 0) :
    a ||| b = a + b := by
  rw [Nat.or_comm, or_eq_add_of_mod k b a hb ha, Nat.add_comm]

/-- An unsigned `MemRead` is the bounds check followed by the read loop. -/
theorem MemRead_false (s : CPU) (addr size : Nat) :
    MemRead s addr size false =
      if (addr + size) % 2 ^ 32 > MEMORY_SIZE then some 0
      else MemReadLoop s.Memory addr (List.range size) 0 := by
  unfold MemRead
  split
  · rfl
  · cases MemReadLoop s.Memory addr (List.range size) 0 <;> simp

/-- The byte `MemWrite` stores at index `j` of an in-bounds span: bits
`8 (j - addr) ..` of the data. -/
theorem MemWrite_inbounds (s : CPU) (addr v size : Nat)
    (hs : size = 1 ∨ size = 2 ∨ size = 4) (hb : addr + size ≤ MEMORY_SIZE) :
    MemWrite s addr v size =
      some (fun j => if addr ≤ j ∧ j < addr + size then v / 2 ^ (8 * (j - addr)) % 256
                     else s.Memory j) := by
  rw [MEMORY_SIZE_eq] at hb
  have hc : ¬ ((addr + size) % 2 ^ 32 > MEMORY_SIZE) := by rw [MEMORY_SIZE_eq]; omega
  have e0 : (addr + 0) % 2 ^ 32 = addr := by omega
  unfold MemWrite
  rw [if_neg hc]
  rcases hs with h | h | h <;> subst h
  · have l0 : addr < MEMORY_SIZE := by rw [MEMORY_SIZE_eq]; omega
    have hr : List.range 1 = [0] := by decide
    rw [hr]
    simp only [MemWriteLoop, memSet, e0, l0, if_true, Nat.shiftRight_eq_div_pow, and_0xFF]
    congr 1
    funext j
    by_cases h0 : j = addr
    · subst h0; simp
    · have : ¬ (addr ≤ j ∧ j < addr + 1) := by omega
      simp [h0, this]
  · have l0 : addr < MEMORY_SIZE := by rw [MEMORY_SIZE_eq]; omega
    have l1 : addr + 1 < MEMORY_SIZE := by rw [MEMORY_SIZE_eq]; omega
    have e1 : (addr + 1) % 2 ^ 32 = addr + 1 := by omega
    have hr : List.range 2 = [0, 1] := by decide
    rw [hr]
    simp only [MemWriteLoop, memSet, e0, e1, l0, l1, if_true, Nat.shiftRight_eq_div_pow,
      and_0xFF]
    congr 1
    funext j
    by_cases h0 : j = addr
    · subst h0; simp
    by_cases h1 : j = addr + 1
    · subst h1; simp
    · have : ¬ (addr ≤ j ∧ j < addr + 2) := by omega
      simp [h0, h1, this]
  · have l0 : addr < MEMORY_SIZE := by rw [MEMORY_SIZE_eq]; omega
    have l1 : addr + 1 < MEMORY_SIZE := by rw [MEMORY_SIZE_eq]; omega
    have l2 : addr + 2 < MEMORY_SIZE := by rw [MEMORY_SIZE_eq]; omega
    have l3 : addr + 3 < MEMORY_SIZE := by rw [MEMORY_SIZE_eq]; omega
    have e1 : (addr + 1) % 2 ^ 32 = addr + 1 := by omega
    have e2 : (addr + 2) % 2 ^ 32 = addr + 2 := by omega
    have e3 : (addr + 3) % 2 ^ 32 = addr + 3 := by omega
    have hr : List.range 4 = [0, 1, 2, 3] := by decide
    rw [hr]
    simp only [MemWriteLoop, memSet, e0, e1, e2, e3, l0, l1, l2, l3, if_true,
      Nat.shiftRight_eq_div_pow, and_0xFF]
    congr 1
    funext j
    by_cases h0 : j = addr
    · subst h0; simp
    by_cases h1 : j = addr + 1
    · subst h1; simp
    by_cases h2 : j = addr + 2
    · subst h2; simp
    by_cases h3 : j = addr + 3
    · subst h3; simp
    · have : ¬ (addr ≤ j ∧ j < addr + 4) := by omega
      simp [h0, h1, h2, h3, this]

/-- The value the read loop assembles from an in-bounds span of bytes:
little-endian, byte `i` weighted by `256 ^ i`. -/
theorem MemReadLoop_inbounds (mem : Nat → Nat) (addr size : Nat)
    (hs : size = 1 ∨ size = 2 ∨ size = 4) (hb : addr + size ≤ MEMORY_SIZE)
    (hbytes : ∀ i, i < size → mem (addr + i) < 256) :
    MemReadLoop mem addr (List.range size) 0 =
      some ((List.range size).foldr (fun i acc => acc + mem (addr + i) * 256 ^ i) 0) := by
  rw [MEMORY_SIZE_eq] at hb
  have e0 : (addr + 0) % 2 ^ 32 = addr := by omega
  rcases hs with h | h | h <;> subst h
  · have l0 : addr < MEMORY_SIZE := by rw [MEMORY_SIZE_eq]; omega
    have hr : List.range 1 = [0] := by decide
    have b0 := hbytes 0 (by omega)
    rw [hr]
    simp only [MemReadLoop, memGet, e0, l0, if_true, Nat.shiftLeft_eq, List.foldr]
    simp only [Nat.add_zero] at b0 ⊢
    congr 1
    simp
    omega
  · have l0 : addr < MEMORY_SIZE := by rw [MEMORY_SIZE_eq]; omega
    have l1 : addr + 1 < MEMORY_SIZE := by rw [MEMORY_SIZE_eq]; omega
    have e1 : (addr + 1) % 2 ^ 32 = addr + 1 := by omega
    have hr : List.range 2 = [0, 1] := by decide
    have b0 := hbytes 0 (by omega)
    have b1 := hbytes 1 (by omega)
    rw [hr]
    simp only [MemReadLoop, memGet, e0, e1, l0, l1, if_true, Nat.shiftLeft_eq, List.foldr,
      Nat.zero_or]
    simp only [Nat.add_zero] at b0 ⊢
    generalize mem addr = x0 at *
    generalize mem (addr + 1) = x1 at *
    congr 1
    have q0 : x0 * 2 ^ (0 * 8) % 2 ^ 32 = x0 := by omega
    have q1 : x1 * 2 ^ (1 * 8) % 2 ^ 32 = x1 * 256 := by omega
    rw [q0, q1, add_or_eq_of_mod 8 x0 _ (by omega) (by omega)]
    omega
  · have l0 : addr < MEMORY_SIZE := by rw [MEMORY_SIZE_eq]; omega
    have l1 : addr + 1 < MEMORY_SIZE := by rw [MEMORY_SIZE_eq]; omega
    have l2 : addr + 2 < MEMORY_SIZE := by rw [MEMORY_SIZE_eq]; omega
    have l3 : addr + 3 < MEMORY_SIZE := by rw [MEMORY_SIZE_eq]; omega
    have e1 : (addr + 1) % 2 ^ 32 = addr + 1 := by omega
    have e2 : (addr + 2) % 2 ^ 32 = addr + 2 := by omega
    have e3 : (addr + 3) % 2 ^ 32 = addr + 3 := by omega
    have hr : List.range 4 = [0, 1, 2, 3] := by decide
    have b0 := hbytes 0 (by omega)
    have b1 := hbytes 1 (by omega)
    have b2 := hbytes 2 (by omega)
    have b3 := hbytes 3 (by omega)
    rw [hr]
    simp only [MemReadLoop, memGet, e0, e1, e2, e3, l0, l1, l2, l3, if_true, Nat.shiftLeft_eq,
      List.foldr, Nat.zero_or]
    simp only [Nat.add_zero] at b0 ⊢
    generalize mem addr = x0 at *
    generalize mem (addr + 1) = x1 at *
    generalize mem (addr + 2) = x2 at *
    generalize mem (addr + 3) = x3 at *
    congr 1
    have q0 : x0 * 2 ^ (0 * 8) % 2 ^ 32 = x0 := by omega
    have q1 : x1 * 2 ^ (1 * 8) % 2 ^ 32 = x1 * 256 := by omega
    have q2 : x2 * 2 ^ (2 * 8) % 2 ^ 32 = x2 * 65536 := by omega
    have q3 : x3 * 2 ^ (3 * 8) % 2 ^ 32 = x3 * 16777216 := by omega
    rw [q0, q1, q2, q3, add_or_eq_of_mod 8 x0 _ (by omega) (by omega),
      add_or_eq_of_mod 16 (_ + _) _ (by omega) (by omega),
      add_or_eq_of_mod 24 (_ + _) _ (by omega) (by omega)]
    omega

/-- An access that ends beyond the memory without wrapping around `2 ^ 32` is
rejected: the read yields 0 and the write keeps the memory. -/
theorem MemAccess_rejected (s : CPU) (addr size data : Nat) (b : Bool)
    (h : addr + size > MEMORY_SIZE) (hw : addr + size < 2 ^ 32) :
    MemRead s addr size b = some 0 ∧ MemWrite s addr data size = some s.Memory := by
  have hc : (addr + size) % 2 ^ 32 > MEMORY_SIZE := by
    rw [MEMORY_SIZE_eq] at h ⊢; omega
  unfold MemRead MemWrite
  rw [if_pos hc, if_pos hc]
  exact ⟨rfl, rfl⟩

/-- An unsigned read of an in-bounds span of bytes returns their little-endian
value. -/
theorem MemRead_false_inbounds (s : CPU) (addr size : Nat)
    (hs : size = 1 ∨ size = 2 ∨ size = 4) (hb : addr + size ≤ MEMORY_SIZE)
    (hbytes : ∀ i, i < size → s.Memory (addr + i) < 256) :
    MemRead s addr size false =
      some ((List.range size).foldr (fun i acc => acc + s.Memory (addr + i) * 256 ^ i) 0) := by
  have hc : ¬ ((addr + size) % 2 ^ 32 > MEMORY_SIZE) := by
    rw [MEMORY_SIZE_eq] at hb ⊢; omega
  rw [MemRead_false, if_neg hc, MemReadLoop_inbounds s.Memory addr size hs hb hbytes]

/-- The signed read in terms of the unsigned one: the sign-extension step of
`MemRead` applied to the assembled value. -/
theorem MemRead_true_of_false (s : CPU) (addr size p : Nat)
    (hp : MemRead s addr size false = some p) :
    MemRead s addr size true =
      if p / 2 ^ (size * 8 - 1) % 2 = 1 then
        some (p ||| (0xFFFFFFFF <<< (size * 8 % 32)) % 2 ^ 32)
      else some p := by
  unfold MemRead at hp ⊢
  by_cases hc : (addr + size) % 2 ^ 32 > MEMORY_SIZE
  · rw [if_pos hc] at hp ⊢
    simp only [Option.some.injEq] at hp
    subst hp
    simp
  · rw [if_neg hc] at hp ⊢
    cases hl : MemReadLoop s.Memory addr (List.range size) 0 with
    | none => rw [hl] at hp; simp at hp
    | some value =>
      rw [hl] at hp
      simp only [Bool.false_eq_true, if_false, Option.some.injEq] at hp
      subst hp
      simp only [if_true, and_0x1, Nat.shiftRight_eq_div_pow]
      by_cases hb : value / 2 ^ (size * 8 - 1) % 2 = 1
      · simp [hb]
      · have : value / 2 ^ (size * 8 - 1) % 2 = 0 := by omega
        simp [this]

/-! ## Definedness of a step

The only accesses without a defined result are those outside the memory
vector, and an access of at most 4 bytes gets past the bounds check with such an
index only when the 32-bit sum `addr + size` wraps.  Everywhere else `MemRead`,
`MemWrite`, `Execute` and `Step` return. -/

/-- The read loop is defined when every index it uses is inside the memory. -/
theorem MemReadLoop_defined (mem : Nat → Nat) (addr : Nat) (l : List Nat) (value : Nat)
    (h : ∀ i ∈ l, (addr + i) % 2 ^ 32 < MEMORY_SIZE) :
    ∃ v, MemReadLoop mem addr l value = some v := by
  induction l generalizing value with
  | nil => exact ⟨value, rfl⟩
  | cons i rest ih =>
    have hi : (addr + i) % 2 ^ 32 < MEMORY_SIZE := h i (List.mem_cons_self i rest)
    simp only [MemReadLoop, memGet, hi, if_true]
    exact ih _ (fun j hj => h j (List.mem_cons_of_mem i hj))

/-- The write loop is defined when every index it uses is inside the memory. -/
theorem MemWriteLoop_defined (addr data : Nat) (l : List Nat) (mem : Nat → Nat)
    (h : ∀ i ∈ l, (addr + i) % 2 ^ 32 < MEMORY_SIZE) :
    ∃ m, MemWriteLoop addr data l mem = some m := by
  induction l generalizing mem with
  | nil => exact ⟨mem, rfl⟩
  | cons i rest ih =>
    have hi : (addr + i) % 2 ^ 32 < MEMORY_SIZE := h i (List.mem_cons_self i rest)
    simp only [MemWriteLoop, memSet, hi, if_true]
    exact ih _ (fun j hj => h j (List.mem_cons_of_mem i hj))

/-- An access whose 32-bit sum `addr + size` does not wrap uses only indices
inside the memory once it has passed the bounds check. -/
theorem access_indices (addr size : Nat) (hw : addr + size < 2 ^ 32)
    (hc : ¬ (addr + size) % 2 ^ 32 > MEMORY_SIZE) :
    ∀ i ∈ List.range size, (addr + i) % 2 ^ 32 < MEMORY_SIZE := by
  intro i hi
  rw [List.mem_range] at hi
  rw [Nat.mod_eq_of_lt hw] at hc
  rw [Nat.mod_eq_of_lt (by omega)]
  omega

/-- The function `MemRead` returns a value whenever `addr + size` does not wrap. -/
theorem MemRead_defined (s : CPU) (addr size : Nat) (b : Bool) (hw : addr + size < 2 ^ 32) :
    ∃ v, MemRead s addr size b = some v := by
  unfold MemRead
  by_cases hc : (addr + size) % 2 ^ 32 > MEMORY_SIZE
  · rw [if_pos hc]; exact ⟨0, rfl⟩
  · rw [if_neg hc]
    obtain ⟨value, hv⟩ := MemReadLoop_defined s.Memory addr (List.range size) 0
      (access_indices addr size hw hc)
    rw [hv]
    simp only []
    split_ifs <;> exact ⟨_, rfl⟩

/-- The function `MemWrite` returns whenever `addr + size` does not wrap. -/
theorem MemWrite_defined (s : CPU) (addr data size : Nat) (hw : addr + size < 2 ^ 32) :
    ∃ m, MemWrite s addr data size = some m := by
  unfold MemWrite
  by_cases hc : (addr + size) % 2 ^ 32 > MEMORY_SIZE
  · rw [if_pos hc]; exact ⟨_, rfl⟩
  · rw [if_neg hc]
    exact MemWriteLoop_defined addr data (List.range size) s.Memory
      (access_indices addr size hw hc)

/-- The `switch (op)` of `Execute` is defined when the effective address of a
load or store is at least 4 below `2 ^ 32`. -/
theorem ExecuteSwitch_defined (s : CPU) (inst : DecodedInstruction) (val1 val2 : Int)
    (ha : inst.opcode = LOAD ∨ inst.opcode = STORE → toUInt32 (val1 + inst.imm) + 4 < 2 ^ 32) :
    ∃ l, ExecuteSwitch s inst val1 val2 = some l := by
  unfold ExecuteSwitch
  simp only []
  by_cases h1 : inst.opcode = OP ∨ inst.opcode = OP_IMM
  · rw [if_pos h1]; exact ⟨_, rfl⟩
  rw [if_neg h1]
  by_cases h2 : inst.opcode = BRANCH
  · rw [if_pos h2]; exact ⟨_, rfl⟩
  rw [if_neg h2]
  by_cases h3 : inst.opcode = JAL
  · rw [if_pos h3]; exact ⟨_, rfl⟩
  rw [if_neg h3]
  by_cases h4 : inst.opcode = JALR
  · rw [if_pos h4]; exact ⟨_, rfl⟩
  rw [if_neg h4]
  by_cases h5 : inst.opcode = LUI
  · rw [if_pos h5]; exact ⟨_, rfl⟩
  rw [if_neg h5]
  by_cases h6 : inst.opcode = AUIPC
  · rw [if_pos h6]; exact ⟨_, rfl⟩
  rw [if_neg h6]
  by_cases h7 : inst.opcode = LOAD
  · rw [if_pos h7]
    have hlt := ha (Or.inl h7)
    have hd : ∀ (n : Nat) (b : Bool), n ≤ 4 →
        ∃ v, MemRead s (toUInt32 (val1 + inst.imm)) n b = some v :=
      fun n b hn => MemRead_defined s _ n b (by omega)
    have hl : ∃ v, (if inst.funct3 = 0 then MemRead s (toUInt32 (val1 + inst.imm)) 1 true
        else if inst.funct3 = 1 then MemRead s (toUInt32 (val1 + inst.imm)) 2 true
        else if inst.funct3 = 2 then MemRead s (toUInt32 (val1 + inst.imm)) 4 true
        else if inst.funct3 = 4 then MemRead s (toUInt32 (val1 + inst.imm)) 1 false
        else if inst.funct3 = 5 then MemRead s (toUInt32 (val1 + inst.imm)) 2 false
        else some 0) = some v := by
      split_ifs
      · exact hd 1 true (by decide)
      · exact hd 2 true (by decide)
      · exact hd 4 true (by decide)
      · exact hd 1 false (by decide)
      · exact hd 2 false (by decide)
      · exact ⟨0, rfl⟩
    obtain ⟨v, hv⟩ := hl
    rw [hv]
    exact ⟨_, rfl⟩
  rw [if_neg h7]
  by_cases h8 : inst.opcode = STORE
  · rw [if_pos h8]
    have hlt := ha (Or.inr h8)
    have hd : ∀ (n : Nat), n ≤ 4 →
        ∃ m, MemWrite s (toUInt32 (val1 + inst.imm)) (toUInt32 val2) n = some m :=
      fun n hn => MemWrite_defined s _ _ n (by omega)
    have hl : ∃ m, (if inst.funct3 = 0 then
          MemWrite s (toUInt32 (val1 + inst.imm)) (toUInt32 val2) 1
        else if inst.funct3 = 1 then MemWrite s (toUInt32 (val1 + inst.imm)) (toUInt32 val2) 2
        else if inst.funct3 = 2 then MemWrite s (toUInt32 (val1 + inst.imm)) (toUInt32 val2) 4
        else some s.Memory) = some m := by
      split_ifs
      · exact hd 1 (by decide)
      · exact hd 2 (by decide)
      · exact hd 4 (by decide)
      · exact ⟨_, rfl⟩
    obtain ⟨m, hm⟩ := hl
    rw [hm]
    exact ⟨_, rfl⟩
  rw [if_neg h8]
  split_ifs <;> exact ⟨_, rfl⟩

/-- The function `Execute` is defined on an instruction with register fields
below 32 when the effective address of a load or store is at least 4 below
`2 ^ 32`. -/
theorem Execute_defined (s : CPU) (inst : DecodedInstruction) (h1 : inst.rs1 < 32)
    (h2 : inst.rs2 < 32) (hd : inst.rd < 32)
    (ha : inst.opcode = LOAD ∨ inst.opcode = STORE →
      toUInt32 (toInt32 (s.Registers inst.rs1) + inst.imm) + 4 < 2 ^ 32) :
    ∃ s1, Execute s inst = some s1 := by
  unfold Execute
  simp only [regGet, h1, if_true]
  have ho : ∃ v2, ExecuteOperand2 s inst = some v2 := by
    unfold ExecuteOperand2
    simp only [regGet, h2, if_true]
    split_ifs <;> exact ⟨_, rfl⟩
  obtain ⟨v2, hv2⟩ := ho
  rw [hv2]
  simp only []
  obtain ⟨l, hl⟩ := ExecuteSwitch_defined s inst (toInt32 (s.Registers inst.rs1)) v2 ha
  rw [hl]
  simp only [regSet, hd, if_true]
  split_ifs <;> exact ⟨_, rfl⟩

/-- The register fields of a decoded word are below 32. -/
theorem Decode_regs_lt (raw : Nat) :
    (Decode raw).rs1 < 32 ∧ (Decode raw).rs2 < 32 ∧ (Decode raw).rd < 32 := by
  simp only [Decode, REG_MASK, and_0x1F]
  refine ⟨?_, ?_, ?_⟩ <;> exact Nat.mod_lt _ (by decide)

/-- One cycle is defined when neither the fetch at the PC nor the access of a
load or store goes past the 32-bit address space. -/
theorem Step_defined (s : CPU) (hpc : s.PC + 4 < 2 ^ 32)
    (ha : ∀ inst, FetchInstruction s = some inst →
      (Decode inst).opcode = LOAD ∨ (Decode inst).opcode = STORE →
      toUInt32 (toInt32 (s.Registers (Decode inst).rs1) + (Decode inst).imm) + 4 < 2 ^ 32) :
    ∃ inst s1, FetchInstruction s = some inst ∧ Execute s (Decode inst) = some s1 ∧
      Step s = some s1 := by
  obtain ⟨inst, hf⟩ : ∃ inst, FetchInstruction s = some inst :=
    MemRead_defined s s.PC 4 false hpc
  obtain ⟨h1, h2, hd⟩ := Decode_regs_lt inst
  obtain ⟨s1, he⟩ := Execute_defined s (Decode inst) h1 h2 hd (ha inst hf)
  refine ⟨inst, s1, hf, he, ?_⟩
  unfold Step
  rw [hf]
  exact he

/-- A sequence of steps alone is the iterated `Step`. -/
theorem runActions_steps (n : Nat) (s : CPU) :
    runActions (List.replicate n Action.step) s = StepN n s := by
  induction n generalizing s with
  | zero => rfl
  | succ n ih =>
    simp only [List.replicate, runActions, StepN]
    cases Step s with
    | none => rfl
    | some s1 => exact ih s1

/-- One `LoadMemory` call followed by steps. -/
theorem runActions_load_steps (d : List Nat) (a n : Nat) (s : CPU) :
    runActions (Action.load d a :: List.replicate n Action.step) s =
      StepN n (LoadMemory s d a) := by
  simp only [runActions]
  exact runActions_steps n _

/-- The run `lwActions` returns: its third step, the `LW` of the word
`0x80000000`, loads `0xFFFFFFFF` into x2 and moves the PC to 12. -/
theorem runActions_lwActions :
    (runActions lwActions CPU.init).map (fun t => (t.Registers 2, t.PC)) =
      some (0xFFFFFFFF, 12) := by
  have h : runActions lwActions CPU.init = StepN 3 lwProgram :=
    runActions_load_steps _ 0 3 CPU.init
  rw [h]
  decide

/-! ## The claims -/

/-- Claim C1, evaluated on the code: the word `0x00000080` has an opcode outside
`OpcodeType`, and executing it after `ADDI x1, x0, 7` overwrites x1 (7 before
the step) with 0, while the PC advances by 4.  The claim says that every
register, `rd` included, is unchanged. -/
theorem unsupported_opcode_clobbers_rd :
    (Decode 0x00000080).opcode ∉ supportedOpcodes ∧
    (StepN 1 illegalProgram).map (fun s => (s.Registers 1, s.PC)) = some (7, 4) ∧
    (StepN 2 illegalProgram).map (fun s => (s.Registers 1, s.PC)) = some (0, 8) := by
  decide

/-- Claim C2, the x0 invariant: in every state reached from a freshly
constructed CPU by a sequence of `LoadMemory` calls and steps,
`GetRegisterValue(0)` is 0; and `Execute` of any instruction on a state with
`Registers[0] = 0` leaves `Registers[0] = 0`.  A step returns, with
`Registers[0]` kept, from every state in which neither the fetch at the PC nor
the access of a load or store goes past the 32-bit address space (the only
accesses that can leave the memory vector); a load of a word with bit 31 set
is such a step. -/
theorem x0_invariant :
    (∀ (acts : List Action) (s : CPU), runActions acts CPU.init = some s →
      GetRegisterValue s 0 = 0) ∧
    (∀ (s s1 : CPU) (inst : DecodedInstruction), s.Registers 0 = 0 →
      Execute s inst = some s1 → s1.Registers 0 = 0) ∧
    (∀ s : CPU, s.PC + 4 < 2 ^ 32 →
      (∀ inst, FetchInstruction s = some inst →
        (Decode inst).opcode = LOAD ∨ (Decode inst).opcode = STORE →
        toUInt32 (toInt32 (s.Registers (Decode inst).rs1) + (Decode inst).imm) + 4 < 2 ^ 32) →
      ∃ s1, Step s = some s1 ∧ s1.Registers 0 = s.Registers 0) := by
  refine ⟨?_, ?_, ?_⟩
  · intro acts s h
    have := runActions_x0 acts CPU.init s rfl h
    simpa [GetRegisterValue] using this
  · intro s s1 inst h0 h
    rw [Execute_x0 s s1 inst h]; exact h0
  · intro s hpc ha
    obtain ⟨inst, s1, -, he, hs⟩ := Step_defined s hpc ha
    exact ⟨s1, hs, Execute_x0 s s1 _ he⟩

/-- Two runs.  One targets x0: `ADDI x0, x0, 5` (word `0x00500013`) loaded at 0
and stepped once.  The other is `LUI x1, 0x80000`; `SW x1, 256(x0)`;
`LW x2, 256(x0)`, whose third step loads a word with bit 31 set: it ends with
`x2 = 0xFFFFFFFF` at PC 12, and x0 is 0. -/
theorem x0_invariant_witness :
    (∃ s, runActions [Action.load [0x13, 0x00, 0x50, 0x00] 0, Action.step] CPU.init = some s ∧
      GetRegisterValue s 0 = 0) ∧
    (∃ s, runActions lwActions CPU.init = some s ∧ s.Registers 2 = 0xFFFFFFFF ∧ s.PC = 12 ∧
      GetRegisterValue s 0 = 0) := by
  constructor
  · cases h : runActions [Action.load [0x13, 0x00, 0x50, 0x00] 0, Action.step] CPU.init with
    | none =>
      have hsome : (runActions [Action.load [0x13, 0x00, 0x50, 0x00] 0, Action.step]
          CPU.init).isSome = true := by decide
      rw [h] at hsome
      exact absurd hsome (by simp)
    | some s => exact ⟨s, rfl, x0_invariant.1 _ s h⟩
  · have hrun := runActions_lwActions
    cases h : runActions lwActions CPU.init with
    | none => rw [h] at hrun; exact absurd hrun (by simp)
    | some s =>
      rw [h] at hrun
      simp only [Option.map_some', Option.some.injEq, Prod.mk.injEq] at hrun
      exact ⟨s, rfl, hrun.1, hrun.2, x0_invariant.1 _ s h⟩

/-- Claim C3, evaluated on the code at `addr = 0xFFFFFFFE`, `size = 4`: the
unbounded sum exceeds `MEMORY_SIZE`, but the 32-bit sum of the bounds check
wraps to 2, the check passes, and both `MemRead` and `MemWrite` index the
vector at `0xFFFFFFFE`, outside of it; neither returns 0 or the unchanged
memory.  A step of `LW x1, -2(x0)` reaches this read. -/
theorem MemAccess_wraparound :
    0xFFFFFFFE + 4 > MEMORY_SIZE ∧
    (0xFFFFFFFE + 4) % 2 ^ 32 = 2 ∧
    MemRead CPU.init 0xFFFFFFFE 4 false = none ∧
    MemWrite CPU.init 0xFFFFFFFE 0x11223344 4 = none ∧
    FetchInstruction wrapProgram = some 0xFFE02083 ∧
    (Step wrapProgram).isSome = false := by
  refine ⟨by decide, by decide, by decide, rfl, by decide, by decide⟩

/-- Claim C4, the memory round trip: for a width `size` of 1, 2 or 4 and an
address with `addr + size <= MEMORY_SIZE`, `MemWrite(addr, v, size)` succeeds
and the unsigned `MemRead(addr, size, false)` on the written memory returns
`v mod 2 ^ (8 * size)`. -/
theorem mem_roundtrip (s : CPU) (addr v size : Nat)
    (hs : size = 1 ∨ size = 2 ∨ size = 4) (hb : addr + size ≤ MEMORY_SIZE) :
    ∃ mem, MemWrite s addr v size = some mem ∧
      MemRead { s with Memory := mem } addr size false = some (v % 2 ^ (8 * size)) := by
  refine ⟨_, MemWrite_inbounds s addr v size hs hb, ?_⟩
  have hc : ¬ ((addr + size) % 2 ^ 32 > MEMORY_SIZE) := by
    rw [MEMORY_SIZE_eq] at hb ⊢; omega
  rw [MemRead_false, if_neg hc, MemReadLoop_inbounds _ addr size hs hb]
  · rcases hs with h | h | h <;> subst h
    · have hr : List.range 1 = [0] := by decide
      simp only [hr, List.foldr]
      simp
    · have hr : List.range 2 = [0, 1] := by decide
      simp only [hr, List.foldr]
      simp
      omega
    · have hr : List.range 4 = [0, 1, 2, 3] := by decide
      simp only [hr, List.foldr]
      simp
      omega
  · intro i hi
    have : addr ≤ addr + i ∧ addr + i < addr + size := by omega
    simp only [this, and_self, if_true]
    omega

/-- The word `0xDEADBEEF` written at address `0x100` with width 4 reads back. -/
theorem mem_roundtrip_witness :
    (4 = 1 ∨ 4 = 2 ∨ 4 = 4) ∧ 0x100 + 4 ≤ MEMORY_SIZE ∧
    ∃ mem, MemWrite CPU.init 0x100 0xDEADBEEF 4 = some mem ∧
      MemRead { CPU.init with Memory := mem } 0x100 4 false = some (0xDEADBEEF % 2 ^ (8 * 4)) :=
  ⟨by decide, by decide,
    mem_roundtrip CPU.init 0x100 0xDEADBEEF 4 (by decide) (by decide)⟩

/-- Claim C5, sign extension of sub-word reads: for a width of 1 or 2 and a
stored pattern `p < 2 ^ (8 * size)` (the value of the unsigned read), when the
top bit of `p` is 1 the signed read returns `p` with all bits above it set, a
negative value as signed 32-bit whose low `8 * size` bits are `p`; when the top
bit is 0 the signed read returns `p`; and the unsigned value `p` itself is
non-negative as signed 32-bit, with no bit above the width. -/
theorem MemRead_sign_extension (s : CPU) (addr size p : Nat) (hs : size = 1 ∨ size = 2)
    (hp : MemRead s addr size false = some p) (hlt : p < 2 ^ (8 * size)) :
    (p / 2 ^ (8 * size - 1) % 2 = 1 →
      MemRead s addr size true = some (p + (2 ^ 32 - 2 ^ (8 * size))) ∧
      toInt32 (p + (2 ^ 32 - 2 ^ (8 * size))) < 0 ∧
      (p + (2 ^ 32 - 2 ^ (8 * size))) % 2 ^ (8 * size) = p) ∧
    (p / 2 ^ (8 * size - 1) % 2 = 0 → MemRead s addr size true = some p) ∧
    toInt32 p = (p : Int) ∧ p / 2 ^ (8 * size) = 0 := by
  have hr := MemRead_true_of_false s addr size p hp
  rcases hs with h | h <;> subst h
  · norm_num at hlt hr ⊢
    have hk : (4294967295 <<< 8 % 4294967296 : Nat) = 4294967040 := by decide
    rw [hk] at hr
    have hm : p ||| 4294967040 = p + 4294967040 := by
      rw [Nat.or_comm, or_eq_add_of_mod 8 _ _ (by omega) (by omega)]; omega
    refine ⟨?_, ?_, ?_, ?_⟩
    · intro hb
      rw [hr, if_pos hb, hm]
      refine ⟨rfl, ?_, by omega⟩
      unfold toInt32; split <;> omega
    · intro hb
      rw [hr, if_neg (by omega)]
    · unfold toInt32; split <;> omega
    · omega
  · norm_num at hlt hr ⊢
    have hk : (4294967295 <<< 16 % 4294967296 : Nat) = 4294901760 := by decide
    rw [hk] at hr
    have hm : p ||| 4294901760 = p + 4294901760 := by
      rw [Nat.or_comm, or_eq_add_of_mod 16 _ _ (by omega) (by omega)]; omega
    refine ⟨?_, ?_, ?_, ?_⟩
    · intro hb
      rw [hr, if_pos hb, hm]
      refine ⟨rfl, ?_, by omega⟩
      unfold toInt32; split <;> omega
    · intro hb
      rw [hr, if_neg (by omega)]
    · unfold toInt32; split <;> omega
    · omega

/-- The byte `0x80` stored at address 16 reads back as `0xFFFFFF80` signed and
as `0x80` unsigned. -/
theorem MemRead_sign_extension_witness :
    MemRead (LoadMemory CPU.init [0x80] 16) 16 1 false = some 0x80 ∧
    MemRead (LoadMemory CPU.init [0x80] 16) 16 1 true = some 0xFFFFFF80 ∧
    toInt32 0xFFFFFF80 = -128 := by
  have h := MemRead_sign_extension (LoadMemory CPU.init [0x80] 16) 16 1 0x80 (by decide)
    (by decide) (by decide)
  exact ⟨by decide, h.1 (by decide) |>.1, by decide⟩

/-- Claim C6, the B-format round trip: for every even `imm` in
`[-4096, 4094]`, `rs1, rs2` in `[0, 31]` and `funct3` in `[0, 7]`, decoding the
B-type word yields exactly `imm` and the encoded `rs1`, `rs2`, `funct3`. -/
theorem decode_B_roundtrip (imm : Int) (rs1 rs2 funct3 : Nat)
    (himm : -4096 ≤ imm ∧ imm ≤ 4094) (heven : imm % 2 = 0)
    (h1 : rs1 < 32) (h2 : rs2 < 32) (h3 : funct3 < 8) :
    (Decode (encodeB imm rs1 rs2 funct3)).imm = imm ∧
    (Decode (encodeB imm rs1 rs2 funct3)).rs1 = rs1 ∧
    (Decode (encodeB imm rs1 rs2 funct3)).rs2 = rs2 ∧
    (Decode (encodeB imm rs1 rs2 funct3)).funct3 = funct3 ∧
    (Decode (encodeB imm rs1 rs2 funct3)).opcode = BRANCH := by
  have hu := toUInt32_of_range imm (by omega)
  rw [encodeB_eq imm rs1 rs2 funct3 h1 h2 h3]
  have ha : immField imm 12 1 = toUInt32 imm / 4096 % 2 := by
    simp only [immField, Nat.shiftRight_eq_div_pow]; norm_num
  have hb : immField imm 5 6 = toUInt32 imm / 32 % 64 := by
    simp only [immField, Nat.shiftRight_eq_div_pow]; norm_num
  have hc : immField imm 1 4 = toUInt32 imm / 2 % 16 := by
    simp only [immField, Nat.shiftRight_eq_div_pow]; norm_num
  have hd : immField imm 11 1 = toUInt32 imm / 2048 % 2 := by
    simp only [immField, Nat.shiftRight_eq_div_pow]; norm_num
  obtain ⟨f31, f25, f20, f15, f12, f8, f7, fop, -⟩ :=
    word_fields (immField imm 12 1) (immField imm 5 6) rs2 rs1 funct3 (immField imm 1 4)
      (immField imm 11 1) 0x63 _ (immField_lt imm 12 1) (immField_lt imm 5 6) h2 h1 h3
      (immField_lt imm 1 4) (immField_lt imm 11 1) (by decide) rfl
  generalize immField imm 12 1 * 2 ^ 31 + immField imm 5 6 * 2 ^ 25 + rs2 * 2 ^ 20
    + rs1 * 2 ^ 15 + funct3 * 2 ^ 12 + immField imm 1 4 * 2 ^ 8 + immField imm 11 1 * 2 ^ 7
    + 0x63 = w at *
  have hop : w &&& OPCODE_MASK = BRANCH := by
    unfold OPCODE_MASK BRANCH; rw [and_0x7F]; exact fop
  refine ⟨?_, ?_, ?_, ?_, hop⟩
  · show GenerateImmediate w (w &&& OPCODE_MASK) = imm
    rw [hop, GenerateImmediate_BRANCH, f31, f25, f8, f7, ha, hb, hc, hd]
    clear f31 f25 f20 f15 f12 f8 f7 fop hop ha hb hc hd
    split at hu <;> split <;> omega
  · show (w >>> RS1_SHIFT) &&& REG_MASK = rs1
    unfold RS1_SHIFT REG_MASK
    rw [and_0x1F, Nat.shiftRight_eq_div_pow]; exact f15
  · show (w >>> RS2_SHIFT) &&& REG_MASK = rs2
    unfold RS2_SHIFT REG_MASK
    rw [and_0x1F, Nat.shiftRight_eq_div_pow]; exact f20
  · show (w >>> FUNCT3_SHIFT) &&& FUNCT3_MASK = funct3
    unfold FUNCT3_SHIFT FUNCT3_MASK
    rw [and_0x7, Nat.shiftRight_eq_div_pow]; exact f12

/-- The branch `BEQ x1, x2, -8`, the word `0xFE208CE3`. -/
theorem decode_B_roundtrip_witness :
    encodeB (-8) 1 2 0 = 0xFE208CE3 ∧
    (Decode (encodeB (-8) 1 2 0)).imm = -8 ∧
    (Decode (encodeB (-8) 1 2 0)).rs1 = 1 ∧
    (Decode (encodeB (-8) 1 2 0)).rs2 = 2 ∧
    (Decode (encodeB (-8) 1 2 0)).funct3 = 0 ∧
    (Decode (encodeB (-8) 1 2 0)).opcode = BRANCH :=
  ⟨by decide, decode_B_roundtrip (-8) 1 2 0 (by decide) (by decide) (by decide) (by decide)
    (by decide)⟩

/-- Claim C7, the J-format round trip: for every even `imm` in
`[-1048576, 1048574]` and `rd` in `[0, 31]`, decoding the J-type word yields
exactly `imm` and the encoded `rd`; and the word `0xFF5FF06F` of the Fibonacci
program decodes to `rd = 0`, `imm = -12`. -/
theorem decode_J_roundtrip :
    (∀ (imm : Int) (rd : Nat), -1048576 ≤ imm → imm ≤ 1048574 → imm % 2 = 0 → rd < 32 →
      (Decode (encodeJ imm rd)).imm = imm ∧ (Decode (encodeJ imm rd)).rd = rd ∧
      (Decode (encodeJ imm rd)).opcode = JAL) ∧
    (Decode 0xFF5FF06F).rd = 0 ∧ (Decode 0xFF5FF06F).imm = -12 := by
  refine ⟨?_, by decide, by decide⟩
  intro imm rd hlo hhi heven h1
  have hu := toUInt32_of_range imm (by omega)
  rw [encodeJ_eq imm rd h1]
  have ha : immField imm 20 1 = toUInt32 imm / 1048576 % 2 := by
    simp only [immField, Nat.shiftRight_eq_div_pow]; norm_num
  have hb : immField imm 1 10 = toUInt32 imm / 2 % 1024 := by
    simp only [immField, Nat.shiftRight_eq_div_pow]; norm_num
  have hc : immField imm 11 1 = toUInt32 imm / 2048 % 2 := by
    simp only [immField, Nat.shiftRight_eq_div_pow]; norm_num
  have hd : immField imm 12 8 = toUInt32 imm / 4096 % 256 := by
    simp only [immField, Nat.shiftRight_eq_div_pow]; norm_num
  obtain ⟨f31, f21, f20, f12, f7, fop⟩ :=
    word_fields_J (immField imm 20 1) (immField imm 1 10) (immField imm 11 1)
      (immField imm 12 8) rd 0x6F _ (immField_lt imm 20 1) (immField_lt imm 1 10)
      (immField_lt imm 11 1) (immField_lt imm 12 8) h1 (by decide) rfl
  generalize immField imm 20 1 * 2 ^ 31 + immField imm 1 10 * 2 ^ 21
    + immField imm 11 1 * 2 ^ 20 + immField imm 12 8 * 2 ^ 12 + rd * 2 ^ 7 + 0x6F = w at *
  have hop : w &&& OPCODE_MASK = JAL := by
    unfold OPCODE_MASK JAL; rw [and_0x7F]; exact fop
  refine ⟨?_, ?_, hop⟩
  · show GenerateImmediate w (w &&& OPCODE_MASK) = imm
    rw [hop, GenerateImmediate_JAL, f31, f21, f20, f12, ha, hb, hc, hd]
    clear f31 f21 f20 f12 f7 fop hop ha hb hc hd
    split at hu <;> split <;> omega
  · show (w >>> RD_SHIFT) &&& REG_MASK = rd
    unfold RD_SHIFT REG_MASK
    rw [and_0x1F, Nat.shiftRight_eq_div_pow]; exact f7

/-- The jump `JAL x0, -12`, the word `0xFF5FF06F`. -/
theorem decode_J_roundtrip_witness :
    encodeJ (-12) 0 = 0xFF5FF06F ∧
    (Decode (encodeJ (-12) 0)).imm = -12 ∧
    (Decode (encodeJ (-12) 0)).rd = 0 ∧
    (Decode (encodeJ (-12) 0)).opcode = JAL :=
  ⟨by decide, decode_J_roundtrip.1 (-12) 0 (by decide) (by decide) (by decide) (by decide)⟩

/-- Claim C8, the I-format round trip: for every opcode among `JALR`, `LOAD`,
`OP_IMM`, `SYSTEM`, every `imm` in `[-2048, 2047]`, `rd, rs1` in `[0, 31]` and
`funct3` in `[0, 7]`, decoding the word
`((imm mod 4096) << 20) | rs1 << 15 | funct3 << 12 | rd << 7 | opcode` yields
exactly `imm` and the encoded `rd`, `rs1`, `funct3`. -/
theorem decode_I_roundtrip (opcode : Nat) (imm : Int) (rd rs1 funct3 : Nat)
    (hopc : opcode = JALR ∨ opcode = LOAD ∨ opcode = OP_IMM ∨ opcode = SYSTEM)
    (himm : -2048 ≤ imm ∧ imm ≤ 2047) (h1 : rd < 32) (h2 : rs1 < 32) (h3 : funct3 < 8) :
    (Decode (encodeI opcode imm rd rs1 funct3)).imm = imm ∧
    (Decode (encodeI opcode imm rd rs1 funct3)).rd = rd ∧
    (Decode (encodeI opcode imm rd rs1 funct3)).rs1 = rs1 ∧
    (Decode (encodeI opcode imm rd rs1 funct3)).funct3 = funct3 ∧
    (Decode (encodeI opcode imm rd rs1 funct3)).opcode = opcode := by
  have hlt : opcode < 128 := by
    rcases hopc with h | h | h | h <;> rw [h] <;> decide
  have hu : (((imm % 4096).toNat : Nat) : Int) = if imm < 0 then imm + 4096 else imm := by
    split <;> omega
  have hu2 : (imm % 4096).toNat < 4096 := by omega
  rw [encodeI_eq opcode imm rd rs1 funct3 hlt h1 h2 h3]
  obtain ⟨f20, f15, f12, f7, fop⟩ :=
    word_fields_I (imm % 4096).toNat rs1 funct3 rd opcode _ h2 h3 h1 hlt rfl
  have hw32 : (imm % 4096).toNat * 2 ^ 20 + rs1 * 2 ^ 15 + funct3 * 2 ^ 12 + rd * 2 ^ 7
      + opcode < 2 ^ 32 := by omega
  generalize (imm % 4096).toNat * 2 ^ 20 + rs1 * 2 ^ 15 + funct3 * 2 ^ 12 + rd * 2 ^ 7
    + opcode = w at *
  have hop : w &&& OPCODE_MASK = opcode := by
    unfold OPCODE_MASK; rw [and_0x7F]; exact fop
  refine ⟨?_, ?_, ?_, ?_, hop⟩
  · show GenerateImmediate w (w &&& OPCODE_MASK) = imm
    rw [hop, GenerateImmediate_I w opcode hopc]
    clear f15 f12 f7 fop hop hopc
    generalize (imm % 4096).toNat = u at *
    unfold toInt32
    split at hu <;> split <;> omega
  · show (w >>> RD_SHIFT) &&& REG_MASK = rd
    unfold RD_SHIFT REG_MASK
    rw [and_0x1F, Nat.shiftRight_eq_div_pow]; exact f7
  · show (w >>> RS1_SHIFT) &&& REG_MASK = rs1
    unfold RS1_SHIFT REG_MASK
    rw [and_0x1F, Nat.shiftRight_eq_div_pow]; exact f15
  · show (w >>> FUNCT3_SHIFT) &&& FUNCT3_MASK = funct3
    unfold FUNCT3_SHIFT FUNCT3_MASK
    rw [and_0x7, Nat.shiftRight_eq_div_pow]; exact f12

/-- The instruction `ADDI x1, x0, -1`, the word `0xFFF00093`. -/
theorem decode_I_roundtrip_witness :
    encodeI OP_IMM (-1) 1 0 0 = 0xFFF00093 ∧
    (Decode (encodeI OP_IMM (-1) 1 0 0)).imm = -1 ∧
    (Decode (encodeI OP_IMM (-1) 1 0 0)).rd = 1 ∧
    (Decode (encodeI OP_IMM (-1) 1 0 0)).rs1 = 0 ∧
    (Decode (encodeI OP_IMM (-1) 1 0 0)).funct3 = 0 ∧
    (Decode (encodeI OP_IMM (-1) 1 0 0)).opcode = OP_IMM :=
  ⟨by decide, decode_I_roundtrip OP_IMM (-1) 1 0 0 (by decide) (by decide) (by decide)
    (by decide) (by decide)⟩

/-- Claim C9, the S-format round trip: for every `imm` in `[-2048, 2047]`,
`rs1, rs2` in `[0, 31]` and `funct3` in `[0, 7]`, decoding the S-type word
yields exactly `imm` and the encoded `rs1`, `rs2`, `funct3`. -/
theorem decode_S_roundtrip (imm : Int) (rs1 rs2 funct3 : Nat)
    (himm : -2048 ≤ imm ∧ imm ≤ 2047) (h1 : rs1 < 32) (h2 : rs2 < 32) (h3 : funct3 < 8) :
    (Decode (encodeS imm rs1 rs2 funct3)).imm = imm ∧
    (Decode (encodeS imm rs1 rs2 funct3)).rs1 = rs1 ∧
    (Decode (encodeS imm rs1 rs2 funct3)).rs2 = rs2 ∧
    (Decode (encodeS imm rs1 rs2 funct3)).funct3 = funct3 ∧
    (Decode (encodeS imm rs1 rs2 funct3)).opcode = STORE := by
  have hu := toUInt32_of_range imm (by omega)
  rw [encodeS_eq imm rs1 rs2 funct3 h1 h2 h3]
  have ha : immField imm 5 7 = toUInt32 imm / 32 % 128 := by
    simp only [immField, Nat.shiftRight_eq_div_pow]; norm_num
  have hb : immField imm 0 5 = toUInt32 imm % 32 := by
    simp only [immField, Nat.shiftRight_eq_div_pow]; norm_num
  generalize immField imm 5 7 = a at *
  generalize immField imm 0 5 = b at *
  generalize hw : a * 2 ^ 25 + rs2 * 2 ^ 20 + rs1 * 2 ^ 15 + funct3 * 2 ^ 12 + b * 2 ^ 7 + 0x23 = w
  have hop : w &&& OPCODE_MASK = STORE := by
    unfold OPCODE_MASK STORE; rw [and_0x7F]; omega
  refine ⟨?_, ?_, ?_, ?_, hop⟩
  · show GenerateImmediate w (w &&& OPCODE_MASK) = imm
    rw [hop, GenerateImmediate_STORE]
    have hwa : w / 2 ^ 25 % 128 = a := by omega
    have hwb : w / 2 ^ 7 % 32 = b := by omega
    rw [hwa, hwb]
    split at hu <;> split <;> omega
  · show (w >>> RS1_SHIFT) &&& REG_MASK = rs1
    unfold RS1_SHIFT REG_MASK
    rw [and_0x1F, Nat.shiftRight_eq_div_pow]; omega
  · show (w >>> RS2_SHIFT) &&& REG_MASK = rs2
    unfold RS2_SHIFT REG_MASK
    rw [and_0x1F, Nat.shiftRight_eq_div_pow]; omega
  · show (w >>> FUNCT3_SHIFT) &&& FUNCT3_MASK = funct3
    unfold FUNCT3_SHIFT FUNCT3_MASK
    rw [and_0x7, Nat.shiftRight_eq_div_pow]; omega

/-- The store `SW x2, -4(x1)`, the word `0xFE20AE23`. -/
theorem decode_S_roundtrip_witness :
    encodeS (-4) 1 2 2 = 0xFE20AE23 ∧
    (Decode (encodeS (-4) 1 2 2)).imm = -4 ∧
    (Decode (encodeS (-4) 1 2 2)).rs1 = 1 ∧
    (Decode (encodeS (-4) 1 2 2)).rs2 = 2 ∧
    (Decode (encodeS (-4) 1 2 2)).funct3 = 2 ∧
    (Decode (encodeS (-4) 1 2 2)).opcode = STORE :=
  ⟨by decide, decode_S_roundtrip (-4) 1 2 2 (by decide) (by decide) (by decide) (by decide)⟩

/-- Claim C10: for every word whose low 7 bits are `OP` or are none of the
ten supported opcodes, `Decode` returns a record (it is a total function) whose
`imm` is 0. -/
theorem decode_imm_zero (raw : Nat)
    (h : raw % 128 = OP ∨ raw % 128 ∉ supportedOpcodes) :
    ∃ d, Decode raw = d ∧ d.imm = 0 := by
  refine ⟨Decode raw, rfl, ?_⟩
  show GenerateImmediate raw (raw &&& OPCODE_MASK) = 0
  unfold OPCODE_MASK
  rw [and_0x7F]
  rcases h with h | h
  · rw [h]; rfl
  · simp only [supportedOpcodes, List.mem_cons, List.mem_singleton, not_or, List.mem_nil_iff,
      or_false] at h
    obtain ⟨h1, h2, h3, h4, h5, h6, h7, h8, h9, h10⟩ := h
    simp [GenerateImmediate, h1, h2, h3, h4, h5, h6, h7, h8, h9, h10]

/-- The register-register word `0x003100B3` (ADD). -/
theorem decode_imm_zero_witness :
    (0x003100B3 % 128 = OP ∨ 0x003100B3 % 128 ∉ supportedOpcodes) ∧
    ∃ d, Decode 0x003100B3 = d ∧ d.imm = 0 :=
  ⟨by decide, decode_imm_zero 0x003100B3 (by decide)⟩

/-! ## The executor, case by case -/

theorem toUInt32_toInt32 (x : Nat) : toUInt32 (toInt32 x) = x % 2 ^ 32 := by
  unfold toUInt32 toInt32
  split <;> omega

theorem toInt32_toUInt32_mod (i : Int) : toUInt32 i % 2 ^ 32 = toUInt32 i := by
  unfold toUInt32
  omega

/-- `Execute` with a write-back: the operands and the locals after the `switch`
are known, `rd` is not x0 and `write_to_reg` is set. -/
theorem Execute_write (s : CPU) (inst : DecodedInstruction) (val2 : Int)
    (l : ExecuteLocals) (h1 : inst.rs1 < 32)
    (h2 : ExecuteOperand2 s inst = some val2)
    (h3 : ExecuteSwitch s inst (toInt32 (s.Registers inst.rs1)) val2 = some l)
    (hd : inst.rd ≠ 0) (hd32 : inst.rd < 32) (hw : l.write_to_reg = true) :
    Execute s inst =
      some { Registers := fun j => if j = inst.rd then toUInt32 l.result else s.Registers j,
             PC := l.next_pc, Memory := l.Memory } := by
  unfold Execute
  simp only [regGet, h1, if_true, h2, h3, regSet, hd32, hw, hd, ne_eq, not_false_eq_true,
    and_self, toInt32_toUInt32_mod]

/-- `Execute` without a write-back: `rd` is x0 or `write_to_reg` is cleared. -/
theorem Execute_nowrite (s : CPU) (inst : DecodedInstruction) (val2 : Int)
    (l : ExecuteLocals) (h1 : inst.rs1 < 32)
    (h2 : ExecuteOperand2 s inst = some val2)
    (h3 : ExecuteSwitch s inst (toInt32 (s.Registers inst.rs1)) val2 = some l)
    (hw : inst.rd = 0 ∨ l.write_to_reg = false) :
    Execute s inst = some { Registers := s.Registers, PC := l.next_pc, Memory := l.Memory } := by
  unfold Execute
  simp only [regGet, h1, if_true, h2, h3]
  rw [if_neg]
  rcases hw with h | h
  · simp [h]
  · simp [h]

theorem ExecuteOperand2_reg (s : CPU) (inst : DecodedInstruction)
    (hop : inst.opcode = OP ∨ inst.opcode = BRANCH ∨ inst.opcode = STORE) (h2 : inst.rs2 < 32) :
    ExecuteOperand2 s inst = some (toInt32 (s.Registers inst.rs2)) := by
  unfold ExecuteOperand2
  rw [if_pos hop]
  simp [regGet, h2]

theorem ExecuteOperand2_imm (s : CPU) (inst : DecodedInstruction)
    (hop : ¬ (inst.opcode = OP ∨ inst.opcode = BRANCH ∨ inst.opcode = STORE)) :
    ExecuteOperand2 s inst = some inst.imm := by
  unfold ExecuteOperand2
  rw [if_neg hop]

/-- The value of `take_branch` is the branch condition of the specification on
the two (32-bit) register values. -/
theorem ExecuteTakeBranch_iff (funct3 a b : Nat) (ha : a < 2 ^ 32) (hb : b < 2 ^ 32) :
    ExecuteTakeBranch funct3 (toInt32 a) (toInt32 b) = true ↔ branchCondition funct3 a b := by
  have hab : toInt32 a = toInt32 b ↔ a = b := by
    unfold toInt32; constructor
    · intro h; split at h <;> split at h <;> omega
    · intro h; rw [h]
  have hua : toUInt32 (toInt32 a) = a := by rw [toUInt32_toInt32]; omega
  have hub : toUInt32 (toInt32 b) = b := by rw [toUInt32_toInt32]; omega
  unfold ExecuteTakeBranch branchCondition
  rw [hua, hub]
  by_cases h0 : funct3 = 0
  · simp [h0, hab]
  by_cases h1 : funct3 = 1
  · simp [h1, hab]
  by_cases h4 : funct3 = 4
  · simp [h4]
  by_cases h5 : funct3 = 5
  · simp [h5]
  by_cases h6 : funct3 = 6
  · simp [h6]
  by_cases h7 : funct3 = 7
  · simp [h7]
  · simp [h0, h1, h4, h5, h6, h7]

/-- The mask `& ~1` on a 32-bit value clears bit 0. -/
theorem and_0xFFFFFFFE (x : Nat) (h : x < 2 ^ 32) : x &&& 0xFFFFFFFE = x - x % 2 := by
  have hdiv : (x &&& 0xFFFFFFFE) / 2 = x / 2 := by
    rw [Nat.and_div_two]
    have : (0xFFFFFFFE : Nat) / 2 = 2 ^ 31 - 1 := by decide
    rw [this, Nat.and_pow_two_sub_one_eq_mod]
    omega
  have hmod : (x &&& 0xFFFFFFFE) % 2 = 0 := by
    have h1 : ¬ ((x &&& 0xFFFFFFFE) % 2 = 1) := by
      rw [Nat.and_mod_two_eq_one]
      intro hc
      exact absurd hc.2 (by decide)
    omega
  omega

theorem toUInt32_toInt32_add (r : Nat) (i : Int) :
    toUInt32 (toInt32 r + i) = (((r : Int) + i) % 2 ^ 32).toNat := by
  unfold toUInt32 toInt32
  split <;> omega

theorem toUInt32_lt (i : Int) : toUInt32 i < 2 ^ 32 := by
  unfold toUInt32
  omega

theorem ExecuteSwitch_alu (s : CPU) (inst : DecodedInstruction) (val1 val2 : Int)
    (hop : inst.opcode = OP ∨ inst.opcode = OP_IMM) :
    ExecuteSwitch s inst val1 val2 =
      some { result := ExecuteALU inst val1 val2, write_to_reg := true,
             next_pc := (s.PC + 4) % 2 ^ 32, Memory := s.Memory } := by
  unfold ExecuteSwitch
  rw [if_pos hop]

/-- The state after an `OP` or `OP_IMM` instruction with `rd != 0`: `rd` holds
the ALU result, the PC advances by 4. -/
theorem Execute_alu (s : CPU) (inst : DecodedInstruction) (val2 : Int)
    (hop : inst.opcode = OP ∨ inst.opcode = OP_IMM) (h1 : inst.rs1 < 32)
    (h2 : ExecuteOperand2 s inst = some val2) (hd : inst.rd ≠ 0) (hd32 : inst.rd < 32) :
    Execute s inst =
      some { Registers := fun j => if j = inst.rd
                 then toUInt32 (ExecuteALU inst (toInt32 (s.Registers inst.rs1)) val2)
                 else s.Registers j,
             PC := (s.PC + 4) % 2 ^ 32, Memory := s.Memory } :=
  Execute_write s inst val2 _ h1 h2 (ExecuteSwitch_alu s inst _ _ hop) hd hd32 rfl

theorem OP_IMM_not_reg (inst : DecodedInstruction) (hop : inst.opcode = OP_IMM) :
    ¬ (inst.opcode = OP ∨ inst.opcode = BRANCH ∨ inst.opcode = STORE) := by
  rw [hop]; decide

/-- The shift amount `val2 & 0x1F` of a register operand. -/
theorem shamt_reg (r : Nat) : toUInt32 (toInt32 r) &&& 0x1F = r % 32 := by
  rw [and_0x1F, toUInt32_toInt32]
  omega

/-- The shift amount `val2 & 0x1F` of an immediate operand. -/
theorem shamt_imm (i : Int) : toUInt32 i &&& 0x1F = (i % 32).toNat := by
  rw [and_0x1F]
  unfold toUInt32
  omega

/-- The written value of a logical right shift of a 32-bit register value. -/
theorem srl_value (r sh : Nat) (hr : r < 2 ^ 32) :
    toUInt32 (toInt32 (toUInt32 (toInt32 r) >>> sh)) = r / 2 ^ sh := by
  rw [toUInt32_toInt32, toUInt32_toInt32, Nat.shiftRight_eq_div_pow]
  have h1 : r % 2 ^ 32 = r := Nat.mod_eq_of_lt hr
  rw [h1]
  exact Nat.mod_eq_of_lt (lt_of_le_of_lt (Nat.div_le_self _ _) hr)

/-- The arithmetic right shift is the division rounding down. -/
theorem sra_value (v : Int) (sh : Nat) : Int.shiftRight v sh = v / 2 ^ sh := by
  show v >>> sh = _
  rw [Int.shiftRight_eq_div_pow]
  norm_cast

/-! ## Loading, reading back, disassembling -/

/-- The content of the memory after the loop of `LoadMemory`, started at index
`i0`: the cells `startAddr + i0 + k` below `MEMORY_SIZE` receive the bytes, the
others are kept. -/
theorem LoadMemoryLoop_spec (startAddr : Nat) (l : List Nat) (i0 : Nat) (mem : Nat → Nat)
    (j : Nat) :
    LoadMemoryLoop startAddr l i0 mem j =
      if startAddr + i0 ≤ j ∧ j < startAddr + i0 + l.length ∧ j < MEMORY_SIZE
      then l.getD (j - (startAddr + i0)) 0 % 256 else mem j := by
  induction l generalizing i0 mem with
  | nil =>
    have : ¬ (startAddr + i0 ≤ j ∧ j < startAddr + i0 + ([] : List Nat).length ∧
        j < MEMORY_SIZE) := by
      simp only [List.length_nil]; omega
    rw [if_neg this]
    rfl
  | cons b rest ih =>
    unfold LoadMemoryLoop
    by_cases hlt : startAddr + i0 < MEMORY_SIZE
    · rw [if_pos hlt, ih]
      by_cases hj : j = startAddr + i0
      · subst hj
        have h1 : ¬ (startAddr + (i0 + 1) ≤ startAddr + i0 ∧
            startAddr + i0 < startAddr + (i0 + 1) + rest.length ∧
            startAddr + i0 < MEMORY_SIZE) := by omega
        have h2 : startAddr + i0 ≤ startAddr + i0 ∧
            startAddr + i0 < startAddr + i0 + (b :: rest).length ∧
            startAddr + i0 < MEMORY_SIZE := by
          simp only [List.length_cons]; omega
        rw [if_neg h1, if_pos h2]
        simp
      · by_cases hc : startAddr + (i0 + 1) ≤ j ∧ j < startAddr + (i0 + 1) + rest.length ∧
            j < MEMORY_SIZE
        · have h2 : startAddr + i0 ≤ j ∧ j < startAddr + i0 + (b :: rest).length ∧
              j < MEMORY_SIZE := by
            simp only [List.length_cons]; omega
          rw [if_pos hc, if_pos h2]
          have hk : j - (startAddr + i0) = (j - (startAddr + (i0 + 1))) + 1 := by omega
          rw [hk, List.getD_cons_succ]
        · have h2 : ¬ (startAddr + i0 ≤ j ∧ j < startAddr + i0 + (b :: rest).length ∧
              j < MEMORY_SIZE) := by
            simp only [List.length_cons]; omega
          rw [if_neg hc, if_neg h2]
          simp [hj]
    · rw [if_neg hlt, ih]
      have h1 : ¬ (startAddr + (i0 + 1) ≤ j ∧ j < startAddr + (i0 + 1) + rest.length ∧
          j < MEMORY_SIZE) := by omega
      have h2 : ¬ (startAddr + i0 ≤ j ∧ j < startAddr + i0 + (b :: rest).length ∧
          j < MEMORY_SIZE) := by omega
      rw [if_neg h1, if_neg h2]

/-- A register index printed with `%d` is its decimal numeral. -/
theorem formatD_index (n : Nat) (h : n < 32) : formatD (toInt32 n) = toString n := by
  have : toInt32 n = (n : Int) := by
    unfold toInt32; split <;> omega
  rw [this]
  rfl

/-- The unsigned read of a span just written by `MemWrite`. -/
theorem MemRead_after_MemWrite (s : CPU) (addr v size : Nat)
    (hs : size = 1 ∨ size = 2 ∨ size = 4) (hb : addr + size ≤ MEMORY_SIZE) :
    MemRead { s with Memory := fun j => if addr ≤ j ∧ j < addr + size
                then v / 2 ^ (8 * (j - addr)) % 256 else s.Memory j } addr size false
      = some (v % 2 ^ (8 * size)) := by
  have hc : ¬ ((addr + size) % 2 ^ 32 > MEMORY_SIZE) := by
    rw [MEMORY_SIZE_eq] at hb ⊢; omega
  rw [MemRead_false, if_neg hc, MemReadLoop_inbounds _ addr size hs hb]
  · rcases hs with h | h | h <;> subst h
    · have hr : List.range 1 = [0] := by decide
      simp only [hr, List.foldr]
      simp
    · have hr : List.range 2 = [0, 1] := by decide
      simp only [hr, List.foldr]
      simp
      omega
    · have hr : List.range 4 = [0, 1, 2, 3] := by decide
      simp only [hr, List.foldr]
      simp
      omega
  · intro i hi
    have : addr ≤ addr + i ∧ addr + i < addr + size := by omega
    simp only [this, and_self, if_true]
    omega

/-- Reading back, with sign extension, a word whose bit 31 is clear: the mask
is not computed and the word is returned. -/
theorem lw_roundtrip_nonneg (s : CPU) (a v : Nat) (hb : a + 4 ≤ MEMORY_SIZE)
    (hv : v < 2 ^ 31) :
    ∃ mem, MemWrite s a v 4 = some mem ∧
      MemRead { s with Memory := mem } a 4 true = some v := by
  refine ⟨_, MemWrite_inbounds s a v 4 (by decide) hb, ?_⟩
  have hf := MemRead_after_MemWrite s a v 4 (by decide) hb
  rw [MemRead_true_of_false _ a 4 _ hf]
  have h1 : v % 2 ^ (8 * 4) = v := by omega
  rw [h1, if_neg (by omega)]

/-- The word `0xFFFFFFFF` absorbs every 32-bit word under `|`. -/
theorem or_0xFFFFFFFF (v : Nat) (h : v < 2 ^ 32) : v ||| 0xFFFFFFFF = 0xFFFFFFFF := by
  apply Nat.eq_of_testBit_eq
  intro i
  have hm : (0xFFFFFFFF : Nat) = 2 ^ 32 - 1 := by decide
  rw [Nat.testBit_or, hm, Nat.testBit_two_pow_sub_one]
  by_cases hi : i < 32
  · simp [hi]
  · have : v < 2 ^ i := lt_of_lt_of_le h (Nat.pow_le_pow_right (by decide) (by omega))
    simp [hi, Nat.testBit_eq_false_of_lt this]

/-- Reading back, with sign extension, a word whose bit 31 is set: the mask
`0xFFFFFFFF << 32` is ORed in and the read returns `0xFFFFFFFF`. -/
theorem lw_roundtrip_neg (s : CPU) (a v : Nat) (hb : a + 4 ≤ MEMORY_SIZE)
    (hv : 2 ^ 31 ≤ v) (hlt : v < 2 ^ 32) :
    ∃ mem, MemWrite s a v 4 = some mem ∧
      MemRead { s with Memory := mem } a 4 true = some 0xFFFFFFFF := by
  refine ⟨_, MemWrite_inbounds s a v 4 (by decide) hb, ?_⟩
  have hf := MemRead_after_MemWrite s a v 4 (by decide) hb
  rw [MemRead_true_of_false _ a 4 _ hf]
  have h1 : v % 2 ^ (8 * 4) = v := Nat.mod_eq_of_lt (by omega)
  have hk : ((0xFFFFFFFF : Nat) <<< (4 * 8 % 32)) % 2 ^ 32 = 0xFFFFFFFF := by decide
  rw [h1, if_pos (by omega), hk, or_0xFFFFFFFF v hlt]

/-! ## The Fibonacci program -/

theorem decode_fib0 : Decode 0x00100093 =
    { opcode := 0x13, rd := 1, funct3 := 0, rs1 := 0, rs2 := 1, funct7 := 0, imm := 1 } := by
  rfl
theorem decode_fib1 : Decode 0x00000113 =
    { opcode := 0x13, rd := 2, funct3 := 0, rs1 := 0, rs2 := 0, funct7 := 0, imm := 0 } := by
  rfl
theorem decode_fib2 : Decode 0x001101B3 =
    { opcode := 0x33, rd := 3, funct3 := 0, rs1 := 2, rs2 := 1, funct7 := 0, imm := 0 } := by
  rfl
theorem decode_fib3 : Decode 0x00100133 =
    { opcode := 0x33, rd := 2, funct3 := 0, rs1 := 0, rs2 := 1, funct7 := 0, imm := 0 } := by
  rfl
theorem decode_fib4 : Decode 0x003000B3 =
    { opcode := 0x33, rd := 1, funct3 := 0, rs1 := 0, rs2 := 3, funct7 := 0, imm := 0 } := by
  rfl
theorem decode_fib5 : Decode 0xFF5FF06F =
    { opcode := 0x6F, rd := 0, funct3 := 7, rs1 := 31, rs2 := 21, funct7 := 0x7F,
      imm := -12 } := by
  rfl

/-- `MemRead` looks at the memory of the state only. -/
theorem MemRead_congr (s t : CPU) (h : s.Memory = t.Memory) (addr size : Nat) (b : Bool) :
    MemRead s addr size b = MemRead t addr size b := by
  unfold MemRead
  rw [h]

/-- The instruction fetched at a PC of the loaded Fibonacci program. -/
theorem fetch_fib (s : CPU) (hm : s.Memory = ResetAndLoad.Memory) :
    (s.PC = 0 → FetchInstruction s = some 0x00100093) ∧
    (s.PC = 4 → FetchInstruction s = some 0x00000113) ∧
    (s.PC = 8 → FetchInstruction s = some 0x001101B3) ∧
    (s.PC = 12 → FetchInstruction s = some 0x00100133) ∧
    (s.PC = 16 → FetchInstruction s = some 0x003000B3) ∧
    (s.PC = 20 → FetchInstruction s = some 0xFF5FF06F) := by
  unfold FetchInstruction
  refine ⟨?_, ?_, ?_, ?_, ?_, ?_⟩ <;> intro hpc <;>
    rw [hpc, MemRead_congr s ResetAndLoad hm] <;> decide

theorem ExecuteALU_add (inst : DecodedInstruction) (val1 val2 : Int) (hf3 : inst.funct3 = 0)
    (h : ¬ (inst.opcode = OP ∧ inst.funct7 &&& 0x20 ≠ 0)) :
    ExecuteALU inst val1 val2 = toInt32 (toUInt32 (val1 + val2)) := by
  unfold ExecuteALU
  rw [if_pos hf3, if_neg h]

theorem toUInt32_add_regs (a b : Nat) :
    toUInt32 (toInt32 (toUInt32 (toInt32 a + toInt32 b))) = (a + b) % 2 ^ 32 := by
  rw [toUInt32_toInt32]
  unfold toUInt32 toInt32
  split <;> split <;> omega

theorem toUInt32_add_imm (a : Nat) (i : Int) :
    toUInt32 (toInt32 (toUInt32 (toInt32 a + i))) = (((a : Int) + i) % 2 ^ 32).toNat := by
  rw [toUInt32_toInt32]
  unfold toUInt32 toInt32
  split <;> omega

/-- The step of an `ADD rd, rs1, rs2` (with `funct7 = 0`, `rd != 0`). -/
theorem Execute_ADD (s : CPU) (rd rs1 rs2 : Nat) (hd : rd ≠ 0) (hd32 : rd < 32)
    (h1 : rs1 < 32) (h2 : rs2 < 32) :
    Execute s { opcode := 0x33, rd := rd, funct3 := 0, rs1 := rs1, rs2 := rs2, funct7 := 0,
                imm := 0 } =
      some { Registers := fun j => if j = rd then (s.Registers rs1 + s.Registers rs2) % 2 ^ 32
                                   else s.Registers j,
             PC := (s.PC + 4) % 2 ^ 32, Memory := s.Memory } := by
  have hz : (0 : Nat) &&& 0x20 = 0 := by decide
  rw [Execute_alu s _ _ (Or.inl rfl) h1 (ExecuteOperand2_reg s _ (Or.inl rfl) h2) hd hd32,
    ExecuteALU_add _ _ _ rfl (fun h => h.2 hz), toUInt32_add_regs]

/-- The step of an `ADDI rd, rs1, imm` (with `rd != 0`). -/
theorem Execute_ADDI (s : CPU) (rd rs1 rs2 funct7 : Nat) (imm : Int) (hd : rd ≠ 0)
    (hd32 : rd < 32) (h1 : rs1 < 32) :
    Execute s { opcode := 0x13, rd := rd, funct3 := 0, rs1 := rs1, rs2 := rs2,
                funct7 := funct7, imm := imm } =
      some { Registers := fun j => if j = rd then (((s.Registers rs1 : Int) + imm) % 2 ^ 32).toNat
                                   else s.Registers j,
             PC := (s.PC + 4) % 2 ^ 32, Memory := s.Memory } := by
  have hno : ¬ ((0x13 : Nat) = OP ∨ (0x13 : Nat) = BRANCH ∨ (0x13 : Nat) = STORE) := by decide
  have hnop : ¬ ((0x13 : Nat) = OP) := by decide
  rw [Execute_alu s _ _ (Or.inr rfl) h1 (ExecuteOperand2_imm s _ hno) hd hd32,
    ExecuteALU_add _ _ _ rfl (fun h => hnop h.1), toUInt32_add_imm]

/-- The step of a `JAL x0, imm`. -/
theorem Execute_JAL_x0 (s : CPU) (funct3 rs1 rs2 funct7 : Nat) (imm : Int) (h1 : rs1 < 32) :
    Execute s { opcode := 0x6F, rd := 0, funct3 := funct3, rs1 := rs1, rs2 := rs2,
                funct7 := funct7, imm := imm } =
      some { Registers := s.Registers, PC := (((s.PC : Int) + imm) % 2 ^ 32).toNat,
             Memory := s.Memory } := by
  have hno : ¬ ((0x6F : Nat) = OP ∨ (0x6F : Nat) = BRANCH ∨ (0x6F : Nat) = STORE) := by decide
  have hsw : ExecuteSwitch s (⟨0x6F, 0, funct3, rs1, rs2, funct7, imm⟩ : DecodedInstruction)
      (toInt32 (s.Registers rs1)) imm =
      some ⟨toInt32 ((s.PC + 4) % 2 ^ 32), true, toUInt32 ((s.PC : Int) + imm), s.Memory⟩ := by
    unfold ExecuteSwitch
    simp [JAL, OP, OP_IMM, BRANCH]
  exact Execute_nowrite s _ _ _ h1 (ExecuteOperand2_imm s _ hno) hsw (Or.inl rfl)

theorem StepN_add (m n : Nat) (s : CPU) :
    StepN (m + n) s = (StepN m s).bind (StepN n) := by
  induction m generalizing s with
  | zero => simp [StepN]
  | succ m ih =>
    have : m + 1 + n = (m + n) + 1 := by omega
    rw [this]
    simp only [StepN]
    cases Step s with
    | none => rfl
    | some s1 => exact ih s1

/-- The six steps of the loaded Fibonacci program, by PC. -/
theorem step_fib (s : CPU) (hm : s.Memory = ResetAndLoad.Memory) :
    (s.PC = 0 → Step s = some ⟨fun j => if j = 1
        then (((s.Registers 0 : Int) + 1) % 2 ^ 32).toNat else s.Registers j, 4, s.Memory⟩) ∧
    (s.PC = 4 → Step s = some ⟨fun j => if j = 2
        then (((s.Registers 0 : Int) + 0) % 2 ^ 32).toNat else s.Registers j, 8, s.Memory⟩) ∧
    (s.PC = 8 → Step s = some ⟨fun j => if j = 3
        then (s.Registers 2 + s.Registers 1) % 2 ^ 32 else s.Registers j, 12, s.Memory⟩) ∧
    (s.PC = 12 → Step s = some ⟨fun j => if j = 2
        then (s.Registers 0 + s.Registers 1) % 2 ^ 32 else s.Registers j, 16, s.Memory⟩) ∧
    (s.PC = 16 → Step s = some ⟨fun j => if j = 1
        then (s.Registers 0 + s.Registers 3) % 2 ^ 32 else s.Registers j, 20, s.Memory⟩) ∧
    (s.PC = 20 → Step s = some ⟨s.Registers, 8, s.Memory⟩) := by
  obtain ⟨f0, f4, f8, f12, f16, f20⟩ := fetch_fib s hm
  refine ⟨?_, ?_, ?_, ?_, ?_, ?_⟩ <;> intro hpc <;> unfold Step
  · rw [f0 hpc]
    simp only []
    rw [decode_fib0, Execute_ADDI s 1 0 1 0 1 (by decide) (by decide) (by decide), hpc]
    rfl
  · rw [f4 hpc]
    simp only []
    rw [decode_fib1, Execute_ADDI s 2 0 0 0 0 (by decide) (by decide) (by decide), hpc]
    rfl
  · rw [f8 hpc]
    simp only []
    rw [decode_fib2, Execute_ADD s 3 2 1 (by decide) (by decide) (by decide) (by decide), hpc]
    rfl
  · rw [f12 hpc]
    simp only []
    rw [decode_fib3, Execute_ADD s 2 0 1 (by decide) (by decide) (by decide) (by decide), hpc]
    rfl
  · rw [f16 hpc]
    simp only []
    rw [decode_fib4, Execute_ADD s 1 0 3 (by decide) (by decide) (by decide) (by decide), hpc]
    rfl
  · rw [f20 hpc]
    simp only []
    rw [decode_fib5, Execute_JAL_x0 s 7 31 21 0x7F (-12) (by decide), hpc]
    rfl

theorem StepN_succ_of (s t : CPU) (n : Nat) (h : Step s = some t) :
    StepN (n + 1) s = StepN n t := by
  simp only [StepN, h]

/-- The two instructions before the loop establish the loop state. -/
theorem fib_init : ∃ s, StepN 2 ResetAndLoad = some s ∧ FibInv 0 s := by
  obtain ⟨t1, e1, p1, m1, r1⟩ : ∃ t, Step ResetAndLoad = some t ∧ t.PC = 4 ∧
      t.Memory = ResetAndLoad.Memory ∧
      t.Registers = fun j => if j = 1
        then (((ResetAndLoad.Registers 0 : Int) + 1) % 2 ^ 32).toNat
        else ResetAndLoad.Registers j :=
    ⟨_, (step_fib ResetAndLoad rfl).1 rfl, rfl, rfl, rfl⟩
  obtain ⟨t2, e2, p2, m2, r2⟩ : ∃ t, Step t1 = some t ∧ t.PC = 8 ∧ t.Memory = t1.Memory ∧
      t.Registers = fun j => if j = 2 then (((t1.Registers 0 : Int) + 0) % 2 ^ 32).toNat
        else t1.Registers j :=
    ⟨_, (step_fib t1 m1).2.1 p1, rfl, rfl, rfl⟩
  refine ⟨t2, ?_, p2, m2.trans m1, ?_, ?_, ?_⟩
  · rw [StepN_succ_of _ _ _ e1, StepN_succ_of _ _ _ e2]
    rfl
  · rw [r2, r1]; rfl
  · rw [r2, r1]; rfl
  · rw [r2, r1]; rfl

/-- One iteration of the loop: four steps from a loop state give the next one. -/
theorem fib_loop (k : Nat) (s : CPU) (h : FibInv k s) :
    ∃ s1, StepN 4 s = some s1 ∧ FibInv (k + 1) s1 := by
  obtain ⟨hpc, hm, h0, hx1, hx2⟩ := h
  obtain ⟨t1, e1, p1, m1, r1⟩ : ∃ t, Step s = some t ∧ t.PC = 12 ∧ t.Memory = s.Memory ∧
      t.Registers = fun j => if j = 3 then (s.Registers 2 + s.Registers 1) % 2 ^ 32
        else s.Registers j :=
    ⟨_, (step_fib s hm).2.2.1 hpc, rfl, rfl, rfl⟩
  obtain ⟨t2, e2, p2, m2, r2⟩ : ∃ t, Step t1 = some t ∧ t.PC = 16 ∧ t.Memory = t1.Memory ∧
      t.Registers = fun j => if j = 2 then (t1.Registers 0 + t1.Registers 1) % 2 ^ 32
        else t1.Registers j :=
    ⟨_, (step_fib t1 (m1.trans hm)).2.2.2.1 p1, rfl, rfl, rfl⟩
  obtain ⟨t3, e3, p3, m3, r3⟩ : ∃ t, Step t2 = some t ∧ t.PC = 20 ∧ t.Memory = t2.Memory ∧
      t.Registers = fun j => if j = 1 then (t2.Registers 0 + t2.Registers 3) % 2 ^ 32
        else t2.Registers j :=
    ⟨_, (step_fib t2 (m2.trans (m1.trans hm))).2.2.2.2.1 p2, rfl, rfl, rfl⟩
  obtain ⟨t4, e4, p4, m4, r4⟩ : ∃ t, Step t3 = some t ∧ t.PC = 8 ∧ t.Memory = t3.Memory ∧
      t.Registers = t3.Registers :=
    ⟨_, (step_fib t3 (m3.trans (m2.trans (m1.trans hm)))).2.2.2.2.2 p3, rfl, rfl, rfl⟩
  refine ⟨t4, ?_, p4, m4.trans (m3.trans (m2.trans (m1.trans hm))), ?_, ?_, ?_⟩
  · rw [StepN_succ_of _ _ _ e1, StepN_succ_of _ _ _ e2, StepN_succ_of _ _ _ e3,
      StepN_succ_of _ _ _ e4]
    rfl
  · rw [r4, r3, r2, r1]
    simp [h0]
  · rw [r4, r3, r2, r1]
    simp [h0, hx1, hx2, Fib]
  · rw [r4, r3, r2, r1]
    simp [h0, hx1, hx2]

/-! ## The claims, continued -/

/-- Claim C11: for every 32-bit word, `Decode` yields `opcode = raw[6:0]`,
`rd = raw[11:7]`, `funct3 = raw[14:12]`, `rs1 = raw[19:15]`, `rs2 = raw[24:20]`,
`funct7 = raw[31:25]`, with `rd`, `rs1`, `rs2` in `[0, 31]`, `funct3` in
`[0, 7]` and `funct7`, `opcode` in `[0, 127]`. -/
theorem decode_fields (raw : Nat) (hraw : raw < 2 ^ 32) :
    (Decode raw).opcode = raw % 128 ∧ (Decode raw).rd = raw / 2 ^ 7 % 32 ∧
    (Decode raw).funct3 = raw / 2 ^ 12 % 8 ∧ (Decode raw).rs1 = raw / 2 ^ 15 % 32 ∧
    (Decode raw).rs2 = raw / 2 ^ 20 % 32 ∧ (Decode raw).funct7 = raw / 2 ^ 25 ∧
    (Decode raw).rd < 32 ∧ (Decode raw).rs1 < 32 ∧ (Decode raw).rs2 < 32 ∧
    (Decode raw).funct3 < 8 ∧ (Decode raw).funct7 < 128 ∧ (Decode raw).opcode < 128 := by
  simp only [Decode, OPCODE_MASK, REG_MASK, FUNCT3_MASK, FUNCT7_MASK, RD_SHIFT, FUNCT3_SHIFT,
    RS1_SHIFT, RS2_SHIFT, FUNCT7_SHIFT, and_0x7F, and_0x1F, and_0x7, Nat.shiftRight_eq_div_pow]
  refine ⟨trivial, trivial, trivial, trivial, trivial, ?_, ?_, ?_, ?_, ?_, ?_, ?_⟩ <;> omega

/-- The fields of the word `0xFE208CE3`. -/
theorem decode_fields_witness :
    (Decode 0xFE208CE3).opcode = 0xFE208CE3 % 128 ∧ (Decode 0xFE208CE3).rd = 0xFE208CE3 / 2 ^ 7 % 32 ∧
    (Decode 0xFE208CE3).funct3 = 0xFE208CE3 / 2 ^ 12 % 8 ∧
    (Decode 0xFE208CE3).rs1 = 0xFE208CE3 / 2 ^ 15 % 32 ∧
    (Decode 0xFE208CE3).rs2 = 0xFE208CE3 / 2 ^ 20 % 32 ∧
    (Decode 0xFE208CE3).funct7 = 0xFE208CE3 / 2 ^ 25 ∧
    (Decode 0xFE208CE3).rd < 32 ∧ (Decode 0xFE208CE3).rs1 < 32 ∧ (Decode 0xFE208CE3).rs2 < 32 ∧
    (Decode 0xFE208CE3).funct3 < 8 ∧ (Decode 0xFE208CE3).funct7 < 128 ∧
    (Decode 0xFE208CE3).opcode < 128 :=
  decode_fields 0xFE208CE3 (by decide)

/-- Claim C12, branch semantics: for a `BRANCH` instruction, `Execute` sets the
PC to `(PC + imm) mod 2 ^ 32` when the condition selected by `funct3` holds
between `Registers[rs1]` and `Registers[rs2]`, and to `(PC + 4) mod 2 ^ 32`
otherwise, in particular for `funct3` 2 and 3; registers and memory are
unchanged in every case. -/
theorem branch_semantics (s : CPU) (inst : DecodedInstruction) (hop : inst.opcode = BRANCH)
    (h1 : inst.rs1 < 32) (h2 : inst.rs2 < 32)
    (hr1 : s.Registers inst.rs1 < 2 ^ 32) (hr2 : s.Registers inst.rs2 < 2 ^ 32) :
    (branchCondition inst.funct3 (s.Registers inst.rs1) (s.Registers inst.rs2) →
      Execute s inst = some { Registers := s.Registers,
                              PC := (((s.PC : Int) + inst.imm) % 2 ^ 32).toNat,
                              Memory := s.Memory }) ∧
    (¬ branchCondition inst.funct3 (s.Registers inst.rs1) (s.Registers inst.rs2) →
      Execute s inst = some { Registers := s.Registers, PC := (s.PC + 4) % 2 ^ 32,
                              Memory := s.Memory }) ∧
    ((inst.funct3 = 2 ∨ inst.funct3 = 3) →
      Execute s inst = some { Registers := s.Registers, PC := (s.PC + 4) % 2 ^ 32,
                              Memory := s.Memory }) := by
  have ho := ExecuteOperand2_reg s inst (Or.inr (Or.inl hop)) h2
  have hsw : ExecuteSwitch s inst (toInt32 (s.Registers inst.rs1))
      (toInt32 (s.Registers inst.rs2)) =
      some { result := 0, write_to_reg := false,
             next_pc := if ExecuteTakeBranch inst.funct3 (toInt32 (s.Registers inst.rs1))
                 (toInt32 (s.Registers inst.rs2)) = true
               then toUInt32 ((s.PC : Int) + inst.imm) else (s.PC + 4) % 2 ^ 32,
             Memory := s.Memory } := by
    unfold ExecuteSwitch
    simp [hop, BRANCH, OP, OP_IMM]
  have hex := Execute_nowrite s inst _ _ h1 ho hsw (Or.inr rfl)
  have hiff := ExecuteTakeBranch_iff inst.funct3 _ _ hr1 hr2
  have hno : ¬ branchCondition inst.funct3 (s.Registers inst.rs1) (s.Registers inst.rs2) →
      Execute s inst = some { Registers := s.Registers, PC := (s.PC + 4) % 2 ^ 32,
                              Memory := s.Memory } := by
    intro hc
    rw [hex]
    simp only [if_neg (fun h => hc (hiff.mp h))]
  refine ⟨?_, hno, ?_⟩
  · intro hc
    rw [hex]
    simp only [if_pos (hiff.mpr hc)]
    rfl
  · intro h23
    apply hno
    unfold branchCondition
    omega

/-- The instruction `BEQ x1, x2, 8` (word `0x00208463`) at PC 100: with
`x1 = x2 = 5` the next PC is 108, with `x1 = 5`, `x2 = 6` it is 104. -/
theorem branch_semantics_witness :
    encodeB 8 1 2 0 = 0x00208463 ∧
    (Execute branchStateEq (Decode 0x00208463)).map (fun t => t.PC) = some 108 ∧
    (Execute branchStateNe (Decode 0x00208463)).map (fun t => t.PC) = some 104 := by
  refine ⟨by decide, ?_, ?_⟩
  · rw [(branch_semantics branchStateEq (Decode 0x00208463) (by decide) (by decide)
        (by decide) (by decide) (by decide)).1 (Or.inl (by decide))]
    decide
  · rw [(branch_semantics branchStateNe (Decode 0x00208463) (by decide) (by decide)
        (by decide) (by decide) (by decide)).2.1 (by unfold branchCondition; decide)]
    decide

/-- Claim C13, JALR: after `Execute` of a `JALR` instruction the PC is
`(Registers[rs1] + imm) mod 2 ^ 32` with bit 0 cleared; it is even, it is the
sum minus one when the sum is odd, and `Registers[rd]` is
`(old PC + 4) mod 2 ^ 32` when `rd != 0`. -/
theorem jalr_semantics (s : CPU) (inst : DecodedInstruction) (hop : inst.opcode = JALR)
    (h1 : inst.rs1 < 32) (hd : inst.rd < 32) :
    ∃ s1, Execute s inst = some s1 ∧
      s1.PC = (((s.Registers inst.rs1 : Int) + inst.imm) % 2 ^ 32).toNat
                - (((s.Registers inst.rs1 : Int) + inst.imm) % 2 ^ 32).toNat % 2 ∧
      s1.PC % 2 = 0 ∧
      ((((s.Registers inst.rs1 : Int) + inst.imm) % 2 ^ 32).toNat % 2 = 1 →
        s1.PC = (((s.Registers inst.rs1 : Int) + inst.imm) % 2 ^ 32).toNat - 1) ∧
      (inst.rd ≠ 0 → s1.Registers inst.rd = (s.PC + 4) % 2 ^ 32) := by
  have ho := ExecuteOperand2_imm s inst (by rw [hop]; decide)
  have hsw : ExecuteSwitch s inst (toInt32 (s.Registers inst.rs1)) inst.imm =
      some { result := toInt32 ((s.PC + 4) % 2 ^ 32), write_to_reg := true,
             next_pc := toUInt32 (toInt32 (s.Registers inst.rs1) + inst.imm) &&& 0xFFFFFFFE,
             Memory := s.Memory } := by
    unfold ExecuteSwitch
    simp [hop, JALR, OP, OP_IMM, BRANCH, JAL]
  have hpc : toUInt32 (toInt32 (s.Registers inst.rs1) + inst.imm) &&& 0xFFFFFFFE
      = (((s.Registers inst.rs1 : Int) + inst.imm) % 2 ^ 32).toNat
          - (((s.Registers inst.rs1 : Int) + inst.imm) % 2 ^ 32).toNat % 2 := by
    rw [and_0xFFFFFFFE _ (toUInt32_lt _), toUInt32_toInt32_add]
  rw [hpc] at hsw
  generalize (((s.Registers inst.rs1 : Int) + inst.imm) % 2 ^ 32).toNat = target at *
  by_cases h0 : inst.rd = 0
  · refine ⟨_, Execute_nowrite s inst _ _ h1 ho hsw (Or.inl h0), rfl, ?_, ?_, ?_⟩
    · show (target - target % 2) % 2 = 0
      omega
    · intro hodd
      show target - target % 2 = target - 1
      omega
    · intro hne; exact absurd h0 hne
  · refine ⟨_, Execute_write s inst _ _ h1 ho hsw h0 hd rfl, rfl, ?_, ?_, ?_⟩
    · show (target - target % 2) % 2 = 0
      omega
    · intro hodd
      show target - target % 2 = target - 1
      omega
    · intro _
      show (if inst.rd = inst.rd then toUInt32 (toInt32 ((s.PC + 4) % 2 ^ 32)) else _) = _
      rw [if_pos rfl, toUInt32_toInt32]
      omega

/-- The instruction `JALR x1, 2(x5)` (word `0x002280E7`) with `x5 = 0x1001`:
the sum `0x1003` is odd, the next PC is `0x1002` and x1 receives 104. -/
theorem jalr_semantics_witness :
    encodeI JALR 2 1 5 0 = 0x002280E7 ∧
    (Execute jalrState (Decode 0x002280E7)).map (fun t => (t.PC, t.Registers 1))
      = some (0x1002, 104) ∧
    ∃ s1, Execute jalrState (Decode 0x002280E7) = some s1 ∧ s1.PC % 2 = 0 := by
  refine ⟨by decide, by decide, ?_⟩
  obtain ⟨s1, h, -, h2, -⟩ :=
    jalr_semantics jalrState (Decode 0x002280E7) (by decide) (by decide) (by decide)
  exact ⟨s1, h, h2⟩

/-- Claim C14, the Fibonacci program end to end: from a fresh CPU with the 24
bytes of the program loaded at address 0, for every `k` the run of `2 + 4 k`
steps is defined and ends with `x1 = Fib (k + 1) mod 2 ^ 32`,
`x2 = Fib k mod 2 ^ 32` and `PC = 8`. -/
theorem fibonacci_run :
    ResetAndLoad = LoadMemory CPU.init (Run_fibonacciProgram []) 0 ∧
    (Run_fibonacciProgram []).length = 24 ∧
    ∀ k : Nat, ∃ s, StepN (2 + 4 * k) ResetAndLoad = some s ∧
      s.Registers 1 = Fib (k + 1) % 2 ^ 32 ∧ s.Registers 2 = Fib k % 2 ^ 32 ∧ s.PC = 8 := by
  refine ⟨rfl, by decide, ?_⟩
  intro k
  have hinv : ∃ s, StepN (2 + 4 * k) ResetAndLoad = some s ∧ FibInv k s := by
    induction k with
    | zero => exact fib_init
    | succ k ih =>
      obtain ⟨s, hs, hi⟩ := ih
      obtain ⟨s1, hs1, hi1⟩ := fib_loop k s hi
      refine ⟨s1, ?_, hi1⟩
      have : 2 + 4 * (k + 1) = (2 + 4 * k) + 4 := by omega
      rw [this, StepN_add, hs]
      exact hs1
  obtain ⟨s, hs, hi⟩ := hinv
  exact ⟨s, hs, hi.2.2.2.1, hi.2.2.2.2, hi.1⟩

/-- After 22 steps (five iterations) x1 is 8 and x2 is 5. -/
theorem fibonacci_run_witness :
    ∃ s, StepN 22 ResetAndLoad = some s ∧ s.Registers 1 = 8 ∧ s.Registers 2 = 5 ∧ s.PC = 8 := by
  obtain ⟨s, hs, h1, h2, h3⟩ := fibonacci_run.2.2 5
  exact ⟨s, hs, h1, h2, h3⟩

/-- Claim C15, `LoadMemory` is a truncating copy: every cell `startAddr + i`
with `i < length bytes` and `startAddr + i < MEMORY_SIZE` holds `bytes[i]`,
every other cell is unchanged (nothing wraps to low addresses), and registers
and PC are unchanged. -/
theorem LoadMemory_spec (s : CPU) (bytes : List Nat) (startAddr : Nat)
    (hbytes : ∀ b, b ∈ bytes → b < 256) :
    (∀ i, i < bytes.length → startAddr + i < MEMORY_SIZE →
      bytes[i]? = some ((LoadMemory s bytes startAddr).Memory (startAddr + i))) ∧
    (∀ j, ¬ (startAddr ≤ j ∧ j < startAddr + bytes.length ∧ j < MEMORY_SIZE) →
      (LoadMemory s bytes startAddr).Memory j = s.Memory j) ∧
    (LoadMemory s bytes startAddr).Registers = s.Registers ∧
    (LoadMemory s bytes startAddr).PC = s.PC := by
  refine ⟨?_, ?_, rfl, rfl⟩
  · intro i hi hlt
    show _ = some (LoadMemoryLoop startAddr bytes 0 s.Memory (startAddr + i))
    rw [LoadMemoryLoop_spec]
    have hc : startAddr + 0 ≤ startAddr + i ∧ startAddr + i < startAddr + 0 + bytes.length ∧
        startAddr + i < MEMORY_SIZE := by omega
    rw [if_pos hc]
    have hk : startAddr + i - (startAddr + 0) = i := by omega
    rw [hk, List.getElem?_eq_getElem hi, List.getD_eq_getElem _ _ hi,
      Nat.mod_eq_of_lt (hbytes _ (List.getElem_mem hi))]
  · intro j hj
    show LoadMemoryLoop startAddr bytes 0 s.Memory j = s.Memory j
    rw [LoadMemoryLoop_spec, if_neg (by simpa using hj)]

/-- Three bytes loaded two cells before the end of the memory: the first two
are stored, and cell 0 keeps its content. -/
theorem LoadMemory_spec_witness :
    [0xAA, 0xBB, 0xCC][1]? = some ((LoadMemory CPU.init [0xAA, 0xBB, 0xCC]
      (MEMORY_SIZE - 2)).Memory (MEMORY_SIZE - 2 + 1)) ∧
    (LoadMemory CPU.init [0xAA, 0xBB, 0xCC] (MEMORY_SIZE - 2)).Memory 0 = CPU.init.Memory 0 :=
  ⟨(LoadMemory_spec CPU.init [0xAA, 0xBB, 0xCC] (MEMORY_SIZE - 2) (by decide)).1 1
      (by decide) (by decide),
   (LoadMemory_spec CPU.init [0xAA, 0xBB, 0xCC] (MEMORY_SIZE - 2) (by decide)).2.1 0
      (by decide)⟩

/-- Claim C16: `GetRegisterValue` returns 0 for every index outside `[0, 31]`
and the content of the register for every index inside. -/
theorem GetRegisterValue_spec (s : CPU) (index : Int) :
    ((index < 0 ∨ index > 31) → GetRegisterValue s index = 0) ∧
    ((0 ≤ index ∧ index ≤ 31) → GetRegisterValue s index = s.Registers index.toNat) := by
  constructor
  · intro h
    unfold GetRegisterValue
    rw [if_pos h]
  · intro h
    unfold GetRegisterValue
    rw [if_neg (by omega)]

/-- The indices `-1` and `32` on the state with `x5 = 0x1001`, and the index 5. -/
theorem GetRegisterValue_spec_witness :
    GetRegisterValue jalrState (-1) = 0 ∧ GetRegisterValue jalrState 32 = 0 ∧
    GetRegisterValue jalrState 5 = 0x1001 :=
  ⟨(GetRegisterValue_spec jalrState (-1)).1 (by decide),
   (GetRegisterValue_spec jalrState 32).1 (by decide),
   (GetRegisterValue_spec jalrState 5).2 (by decide)⟩

/-- Claim C17, disassembly formats: for `rd`, `rs1`, `rs2` in `[0, 31]` and
every immediate, `Disassemble` renders an `OP` record with `funct3 = 0` and
`funct7 = 0` as `ADD x<rd>, x<rs1>, x<rs2>`, an `OP_IMM` record with
`funct3 = 0` as `ADDI x<rd>, x<rs1>, <imm>` and a `BRANCH` record with
`funct3 = 0` as `BEQ x<rs1>, x<rs2>, <imm>`, the immediate in signed decimal;
the words `0x001101B3`, `0x00100093` and `0xFE208CE3` give `ADD x3, x2, x1`,
`ADDI x1, x0, 1` and `BEQ x1, x2, -8`. -/
theorem disassemble_formats :
    (∀ inst : DecodedInstruction, inst.rd < 32 → inst.rs1 < 32 → inst.rs2 < 32 →
      (inst.opcode = OP → inst.funct3 = 0 → inst.funct7 = 0 →
        Disassemble inst = "ADD x" ++ toString inst.rd ++ ", x" ++ toString inst.rs1
          ++ ", x" ++ toString inst.rs2) ∧
      (inst.opcode = OP_IMM → inst.funct3 = 0 →
        Disassemble inst = "ADDI x" ++ toString inst.rd ++ ", x" ++ toString inst.rs1
          ++ ", " ++ toString inst.imm) ∧
      (inst.opcode = BRANCH → inst.funct3 = 0 →
        Disassemble inst = "BEQ x" ++ toString inst.rs1 ++ ", x" ++ toString inst.rs2
          ++ ", " ++ toString inst.imm)) ∧
    Disassemble (Decode 0x001101B3) = "ADD x3, x2, x1" ∧
    Disassemble (Decode 0x00100093) = "ADDI x1, x0, 1" ∧
    Disassemble (Decode 0xFE208CE3) = "BEQ x1, x2, -8" := by
  refine ⟨?_, by decide, by decide, by decide⟩
  intro inst hd h1 h2
  refine ⟨?_, ?_, ?_⟩
  · intro hop hf3 hf7
    unfold Disassemble
    simp only [hop, hf3, hf7, if_true, formatD_index _ hd, formatD_index _ h1,
      formatD_index _ h2]
    rfl
  · intro hop hf3
    unfold Disassemble
    simp only [hop, hf3, if_true, formatD_index _ hd, formatD_index _ h1]
    rfl
  · intro hop hf3
    unfold Disassemble
    simp only [hop, hf3, if_true, formatD_index _ h1, formatD_index _ h2]
    rfl

/-- The instruction `ADDI x7, x30, -5`. -/
theorem disassemble_formats_witness :
    Disassemble (Decode (encodeI OP_IMM (-5) 7 30 0)) = "ADDI x7, x30, -5" := by
  have h := (disassemble_formats.1 (Decode (encodeI OP_IMM (-5) 7 30 0)) (by decide)
    (by decide) (by decide)).2.1 (by decide) (by decide)
  rw [h]
  decide

/-- Claim C18, evaluated on the code at the word `0x80000000`: written with
width 4 at address `0x100` it reads back unsigned, but the signed read used by
`LW` takes the sign-extension branch (bit 31 is set) and ORs the word with the
mask `0xFFFFFFFF << 32`, so it returns `0xFFFFFFFF`, not the word.  The program
`LUI x1, 0x80000`; `SW x1, 256(x0)`; `LW x2, 256(x0)` stores the word and then
loads `0xFFFFFFFF` into x2.  The same holds for every word with bit 31 set,
at every address where the four bytes are inside the memory. -/
theorem lw_sign_bit_set :
    (MemWrite CPU.init 0x100 0x80000000 4).isSome = true ∧
    (MemWrite CPU.init 0x100 0x80000000 4).bind
      (fun mem => MemRead { CPU.init with Memory := mem } 0x100 4 false) = some 0x80000000 ∧
    (MemWrite CPU.init 0x100 0x80000000 4).bind
      (fun mem => MemRead { CPU.init with Memory := mem } 0x100 4 true) = some 0xFFFFFFFF ∧
    encodeS 256 0 1 2 = 0x10102023 ∧ encodeI LOAD 256 2 0 2 = 0x10002103 ∧
    (StepN 2 lwProgram).map (fun t => (t.Registers 1, t.PC)) = some (0x80000000, 8) ∧
    (StepN 2 lwProgram).bind (fun t => MemRead t 256 4 false) = some 0x80000000 ∧
    (StepN 3 lwProgram).map (fun t => (t.Registers 1, t.Registers 2, t.PC)) =
      some (0x80000000, 0xFFFFFFFF, 12) ∧
    (∀ (s : CPU) (a v : Nat), a + 4 ≤ MEMORY_SIZE → 2 ^ 31 ≤ v → v < 2 ^ 32 →
      ∃ mem, MemWrite s a v 4 = some mem ∧
        MemRead { s with Memory := mem } a 4 true = some 0xFFFFFFFF) := by
  refine ⟨by decide, by decide, by decide, by decide, by decide, by decide, by decide,
    by decide, fun s a v hb hv hlt => lw_roundtrip_neg s a v hb hv hlt⟩

/-- Claim C19, the ADD/SUB rule: for an instruction with `funct3 = 0` and
`rd != 0`, `Execute` writes to `rd` the difference
`(Registers[rs1] - Registers[rs2]) mod 2 ^ 32` when the opcode is `OP` and bit 5
of `funct7` is set, the sum `(Registers[rs1] + Registers[rs2]) mod 2 ^ 32` when
the opcode is `OP` and that bit is clear, and `(Registers[rs1] + imm) mod 2 ^ 32`
when the opcode is `OP_IMM`, whatever `funct7` is. -/
theorem add_sub_rule (s : CPU) (inst : DecodedInstruction) (hf3 : inst.funct3 = 0)
    (hd : inst.rd ≠ 0) (hd32 : inst.rd < 32) (h1 : inst.rs1 < 32) :
    (inst.opcode = OP → inst.rs2 < 32 → inst.funct7 / 32 % 2 = 1 →
      Execute s inst = some
        { Registers := fun j => if j = inst.rd
            then (((s.Registers inst.rs1 : Int) - (s.Registers inst.rs2 : Int)) % 2 ^ 32).toNat
            else s.Registers j,
          PC := (s.PC + 4) % 2 ^ 32, Memory := s.Memory }) ∧
    (inst.opcode = OP → inst.rs2 < 32 → inst.funct7 / 32 % 2 = 0 →
      Execute s inst = some
        { Registers := fun j => if j = inst.rd
            then (s.Registers inst.rs1 + s.Registers inst.rs2) % 2 ^ 32
            else s.Registers j,
          PC := (s.PC + 4) % 2 ^ 32, Memory := s.Memory }) ∧
    (inst.opcode = OP_IMM →
      Execute s inst = some
        { Registers := fun j => if j = inst.rd
            then (((s.Registers inst.rs1 : Int) + inst.imm) % 2 ^ 32).toNat
            else s.Registers j,
          PC := (s.PC + 4) % 2 ^ 32, Memory := s.Memory }) := by
  have hbit : inst.funct7 &&& 0x20 ≠ 0 ↔ inst.funct7 / 32 % 2 = 1 :=
    and_two_pow_ne_zero inst.funct7 5
  refine ⟨?_, ?_, ?_⟩
  · intro hop h2 hb
    rw [Execute_alu s inst _ (Or.inl hop) h1
      (ExecuteOperand2_reg s inst (Or.inl hop) h2) hd hd32]
    have hv : toUInt32 (ExecuteALU inst (toInt32 (s.Registers inst.rs1))
        (toInt32 (s.Registers inst.rs2)))
        = (((s.Registers inst.rs1 : Int) - (s.Registers inst.rs2 : Int)) % 2 ^ 32).toNat := by
      unfold ExecuteALU
      rw [if_pos hf3, if_pos ⟨hop, hbit.mpr hb⟩, toUInt32_toInt32]
      unfold toUInt32 toInt32
      split <;> split <;> omega
    rw [hv]
  · intro hop h2 hb
    rw [Execute_alu s inst _ (Or.inl hop) h1
      (ExecuteOperand2_reg s inst (Or.inl hop) h2) hd hd32]
    have hv : toUInt32 (ExecuteALU inst (toInt32 (s.Registers inst.rs1))
        (toInt32 (s.Registers inst.rs2)))
        = (s.Registers inst.rs1 + s.Registers inst.rs2) % 2 ^ 32 := by
      unfold ExecuteALU
      rw [if_pos hf3, if_neg (fun hc => by have := hbit.mp hc.2; omega), toUInt32_toInt32]
      unfold toUInt32 toInt32
      split <;> split <;> omega
    rw [hv]
  · intro hop
    rw [Execute_alu s inst _ (Or.inr hop) h1
      (ExecuteOperand2_imm s inst (OP_IMM_not_reg inst hop)) hd hd32]
    have hv : toUInt32 (ExecuteALU inst (toInt32 (s.Registers inst.rs1)) inst.imm)
        = (((s.Registers inst.rs1 : Int) + inst.imm) % 2 ^ 32).toNat := by
      unfold ExecuteALU
      rw [if_pos hf3, if_neg (fun hc => by rw [hop] at hc; exact absurd hc.1 (by decide)),
        toUInt32_toInt32]
      unfold toUInt32 toInt32
      split <;> omega
    rw [hv]

/-- The instruction `ADDI x3, x1, 1024` (word `0x40008193`, whose `funct7` field
is `0x20`) adds: x3 becomes 1031; `SUB x3, x1, x2` (word `0x402081B3`) gives
`7 - 9 mod 2 ^ 32`. -/
theorem add_sub_rule_witness :
    encodeI OP_IMM 1024 3 1 0 = 0x40008193 ∧ (Decode 0x40008193).funct7 = 0x20 ∧
    (Execute aluState (Decode 0x40008193)).map (fun t => t.Registers 3) = some 1031 ∧
    (Execute aluState (Decode 0x402081B3)).map (fun t => t.Registers 3) = some 0xFFFFFFFE := by
  refine ⟨by decide, by decide, ?_, ?_⟩
  · rw [(add_sub_rule aluState (Decode 0x40008193) (by decide) (by decide) (by decide)
      (by decide)).2.2 (by decide)]
    decide
  · rw [(add_sub_rule aluState (Decode 0x402081B3) (by decide) (by decide) (by decide)
      (by decide)).1 (by decide) (by decide) (by decide)]
    decide

/-- Claim C20, right shifts: for an `OP` or `OP_IMM` instruction with
`funct3 = 5` and `rd != 0`, with the shift amount `val2 mod 32` (`val2` being
`Registers[rs2]` for `OP` and `imm` for `OP_IMM`), `Execute` writes to `rd` the
quotient `Registers[rs1] / 2 ^ shamt` rounded down when bit 5 of `funct7` is
clear, and the 32-bit two's-complement pattern of the signed value of
`Registers[rs1]` divided by `2 ^ shamt`, rounded down, when it is set. -/
theorem right_shift_rule (s : CPU) (inst : DecodedInstruction) (hf3 : inst.funct3 = 5)
    (hd : inst.rd ≠ 0) (hd32 : inst.rd < 32) (h1 : inst.rs1 < 32)
    (hr1 : s.Registers inst.rs1 < 2 ^ 32) :
    (inst.opcode = OP → inst.rs2 < 32 → inst.funct7 / 32 % 2 = 0 →
      Execute s inst = some
        { Registers := fun j => if j = inst.rd
            then s.Registers inst.rs1 / 2 ^ (s.Registers inst.rs2 % 32)
            else s.Registers j,
          PC := (s.PC + 4) % 2 ^ 32, Memory := s.Memory }) ∧
    (inst.opcode = OP → inst.rs2 < 32 → inst.funct7 / 32 % 2 = 1 →
      Execute s inst = some
        { Registers := fun j => if j = inst.rd
            then ((toInt32 (s.Registers inst.rs1) / 2 ^ (s.Registers inst.rs2 % 32))
                    % 2 ^ 32).toNat
            else s.Registers j,
          PC := (s.PC + 4) % 2 ^ 32, Memory := s.Memory }) ∧
    (inst.opcode = OP_IMM → inst.funct7 / 32 % 2 = 0 →
      Execute s inst = some
        { Registers := fun j => if j = inst.rd
            then s.Registers inst.rs1 / 2 ^ (inst.imm % 32).toNat
            else s.Registers j,
          PC := (s.PC + 4) % 2 ^ 32, Memory := s.Memory }) ∧
    (inst.opcode = OP_IMM → inst.funct7 / 32 % 2 = 1 →
      Execute s inst = some
        { Registers := fun j => if j = inst.rd
            then ((toInt32 (s.Registers inst.rs1) / 2 ^ (inst.imm % 32).toNat) % 2 ^ 32).toNat
            else s.Registers j,
          PC := (s.PC + 4) % 2 ^ 32, Memory := s.Memory }) := by
  have hbit : inst.funct7 &&& 0x20 ≠ 0 ↔ inst.funct7 / 32 % 2 = 1 :=
    and_two_pow_ne_zero inst.funct7 5
  have hf : ∀ k, k ≠ 5 → ¬ inst.funct3 = k := fun k hk hc => hk (by rw [← hc, hf3])
  have halu_srl : ∀ val2 : Int, inst.funct7 / 32 % 2 = 0 →
      ExecuteALU inst (toInt32 (s.Registers inst.rs1)) val2
        = toInt32 (toUInt32 (toInt32 (s.Registers inst.rs1)) >>> (toUInt32 val2 &&& 0x1F)) := by
    intro val2 hb
    unfold ExecuteALU
    rw [if_neg (hf 0 (by decide)), if_neg (hf 1 (by decide)), if_neg (hf 2 (by decide)),
      if_neg (hf 3 (by decide)), if_neg (hf 4 (by decide)), if_pos hf3,
      if_neg (fun hc => by have := hbit.mp hc; omega)]
  have halu_sra : ∀ val2 : Int, inst.funct7 / 32 % 2 = 1 →
      ExecuteALU inst (toInt32 (s.Registers inst.rs1)) val2
        = Int.shiftRight (toInt32 (s.Registers inst.rs1)) (toUInt32 val2 &&& 0x1F) := by
    intro val2 hb
    unfold ExecuteALU
    rw [if_neg (hf 0 (by decide)), if_neg (hf 1 (by decide)), if_neg (hf 2 (by decide)),
      if_neg (hf 3 (by decide)), if_neg (hf 4 (by decide)), if_pos hf3, if_pos (hbit.mpr hb)]
  refine ⟨?_, ?_, ?_, ?_⟩
  · intro hop h2 hb
    rw [Execute_alu s inst _ (Or.inl hop) h1
      (ExecuteOperand2_reg s inst (Or.inl hop) h2) hd hd32, halu_srl _ hb, shamt_reg,
      srl_value _ _ hr1]
  · intro hop h2 hb
    rw [Execute_alu s inst _ (Or.inl hop) h1
      (ExecuteOperand2_reg s inst (Or.inl hop) h2) hd hd32, halu_sra _ hb, shamt_reg,
      sra_value]
    rfl
  · intro hop hb
    rw [Execute_alu s inst _ (Or.inr hop) h1
      (ExecuteOperand2_imm s inst (OP_IMM_not_reg inst hop)) hd hd32, halu_srl _ hb, shamt_imm,
      srl_value _ _ hr1]
  · intro hop hb
    rw [Execute_alu s inst _ (Or.inr hop) h1
      (ExecuteOperand2_imm s inst (OP_IMM_not_reg inst hop)) hd hd32, halu_sra _ hb, shamt_imm,
      sra_value]
    rfl

/-- The instructions `SRAI x3, x1, 4` (word `0x4040D193`) and `SRLI x3, x1, 4`
(word `0x0040D193`) on `x1 = 0x80000010`: sign fill gives `0xF8000001`, zero
fill gives `0x08000001`. -/
theorem right_shift_rule_witness :
    encodeI OP_IMM 0x404 3 1 5 = 0x4040D193 ∧
    (Execute shiftState (Decode 0x4040D193)).map (fun t => t.Registers 3) = some 0xF8000001 ∧
    (Execute shiftState (Decode 0x0040D193)).map (fun t => t.Registers 3) = some 0x08000001 := by
  refine ⟨by decide, ?_, ?_⟩
  · rw [(right_shift_rule shiftState (Decode 0x4040D193) (by decide) (by decide) (by decide)
      (by decide) (by decide)).2.2.2 (by decide) (by decide)]
    decide
  · rw [(right_shift_rule shiftState (Decode 0x0040D193) (by decide) (by decide) (by decide)
      (by decide) (by decide)).2.2.1 (by decide) (by decide)]
    decide

/-! ## Stores, jumps through a register, undefined loads, alignment -/

/-- The `STORE` case of the `switch` when the write is defined. -/
theorem ExecuteSwitch_store (s : CPU) (inst : DecodedInstruction) (val1 val2 : Int)
    (mem : Nat → Nat) (hop : inst.opcode = STORE)
    (hf : inst.funct3 = 0 ∨ inst.funct3 = 1 ∨ inst.funct3 = 2)
    (hw : MemWrite s (toUInt32 (val1 + inst.imm)) (toUInt32 val2) (storeWidth inst.funct3)
      = some mem) :
    ExecuteSwitch s inst val1 val2 =
      some ⟨0, false, (s.PC + 4) % 2 ^ 32, mem⟩ := by
  unfold ExecuteSwitch
  have h1 : ¬ (inst.opcode = OP ∨ inst.opcode = OP_IMM) := by rw [hop]; decide
  have h2 : ¬ inst.opcode = BRANCH := by rw [hop]; decide
  have h3 : ¬ inst.opcode = JAL := by rw [hop]; decide
  have h4 : ¬ inst.opcode = JALR := by rw [hop]; decide
  have h5 : ¬ inst.opcode = LUI := by rw [hop]; decide
  have h6 : ¬ inst.opcode = AUIPC := by rw [hop]; decide
  have h7 : ¬ inst.opcode = LOAD := by rw [hop]; decide
  rw [if_neg h1, if_neg h2, if_neg h3, if_neg h4, if_neg h5, if_neg h6, if_neg h7, if_pos hop]
  rcases hf with h | h | h
  · simp [h, storeWidth] at hw ⊢
    simp [hw]
  · simp [h, storeWidth] at hw ⊢
    simp [hw]
  · simp [h, storeWidth] at hw ⊢
    simp [hw]

/-- The state after a `JALR` with `rd != 0`: the link value in `rd`, the PC at
the 32-bit sum `Registers[rs1] + imm` (read before the write-back) with bit 0
cleared. -/
theorem Execute_JALR (s : CPU) (inst : DecodedInstruction) (hop : inst.opcode = JALR)
    (h1 : inst.rs1 < 32) (hd : inst.rd ≠ 0) (hd32 : inst.rd < 32) :
    Execute s inst = some
      ⟨fun j => if j = inst.rd then (s.PC + 4) % 2 ^ 32 else s.Registers j,
       (((s.Registers inst.rs1 : Int) + inst.imm) % 2 ^ 32).toNat
         - (((s.Registers inst.rs1 : Int) + inst.imm) % 2 ^ 32).toNat % 2,
       s.Memory⟩ := by
  have ho := ExecuteOperand2_imm s inst (by rw [hop]; decide)
  have hsw : ExecuteSwitch s inst (toInt32 (s.Registers inst.rs1)) inst.imm =
      some ⟨toInt32 ((s.PC + 4) % 2 ^ 32), true,
            toUInt32 (toInt32 (s.Registers inst.rs1) + inst.imm) &&& 0xFFFFFFFE, s.Memory⟩ := by
    unfold ExecuteSwitch
    simp [hop, JALR, OP, OP_IMM, BRANCH, JAL]
  have hpc : toUInt32 (toInt32 (s.Registers inst.rs1) + inst.imm) &&& 0xFFFFFFFE
      = (((s.Registers inst.rs1 : Int) + inst.imm) % 2 ^ 32).toNat
          - (((s.Registers inst.rs1 : Int) + inst.imm) % 2 ^ 32).toNat % 2 := by
    rw [and_0xFFFFFFFE _ (toUInt32_lt _), toUInt32_toInt32_add]
  have hlink : toUInt32 (toInt32 ((s.PC + 4) % 2 ^ 32)) = (s.PC + 4) % 2 ^ 32 := by
    rw [toUInt32_toInt32]; omega
  rw [hpc] at hsw
  rw [Execute_write s inst _ _ h1 ho hsw hd hd32 rfl]
  simp only [hlink]

/-- The `LOAD` case of the `switch` for a `funct3` without a `case`: nothing is
read and `result` keeps its initial value 0. -/
theorem ExecuteSwitch_load_default (s : CPU) (inst : DecodedInstruction) (val1 val2 : Int)
    (hop : inst.opcode = LOAD)
    (hf : inst.funct3 = 3 ∨ inst.funct3 = 6 ∨ inst.funct3 = 7) :
    ExecuteSwitch s inst val1 val2 = some ⟨0, true, (s.PC + 4) % 2 ^ 32, s.Memory⟩ := by
  unfold ExecuteSwitch
  have h1 : ¬ (inst.opcode = OP ∨ inst.opcode = OP_IMM) := by rw [hop]; decide
  have h2 : ¬ inst.opcode = BRANCH := by rw [hop]; decide
  have h3 : ¬ inst.opcode = JAL := by rw [hop]; decide
  have h4 : ¬ inst.opcode = JALR := by rw [hop]; decide
  have h5 : ¬ inst.opcode = LUI := by rw [hop]; decide
  have h6 : ¬ inst.opcode = AUIPC := by rw [hop]; decide
  rw [if_neg h1, if_neg h2, if_neg h3, if_neg h4, if_neg h5, if_neg h6, if_pos hop]
  rcases hf with h | h | h <;> simp [h, toInt32]

theorem Decode_opcode (raw : Nat) : (Decode raw).opcode = raw % 128 := by
  show raw &&& OPCODE_MASK = _
  unfold OPCODE_MASK
  rw [and_0x7F]

theorem Decode_imm (raw : Nat) : (Decode raw).imm = GenerateImmediate raw (Decode raw).opcode :=
  rfl

/-- The J-format immediate of a decoded word is even. -/
theorem jal_imm_even (raw : Nat) (hop : raw % 128 = JAL) : (Decode raw).imm % 2 = 0 := by
  rw [Decode_imm, Decode_opcode, hop, GenerateImmediate_JAL]
  split <;> omega

/-- The B-format immediate of a decoded word is even. -/
theorem branch_imm_even (raw : Nat) (hop : raw % 128 = BRANCH) : (Decode raw).imm % 2 = 0 := by
  rw [Decode_imm, Decode_opcode, hop, GenerateImmediate_BRANCH]
  split <;> omega

/-- The PC after a defined `Execute` is the `next_pc` of the `switch`. -/
theorem Execute_PC (s s1 : CPU) (inst : DecodedInstruction) (h : Execute s inst = some s1) :
    ∃ val1 val2 l, ExecuteSwitch s inst val1 val2 = some l ∧ s1.PC = l.next_pc := by
  unfold Execute at h
  cases h1 : regGet s.Registers inst.rs1 with
  | none => rw [h1] at h; exact absurd h (by simp)
  | some r1 =>
    rw [h1] at h
    simp only [] at h
    cases ho : ExecuteOperand2 s inst with
    | none => rw [ho] at h; exact absurd h (by simp)
    | some val2 =>
      rw [ho] at h
      simp only [] at h
      cases hsw : ExecuteSwitch s inst (toInt32 r1) val2 with
      | none => rw [hsw] at h; exact absurd h (by simp)
      | some l =>
        rw [hsw] at h
        simp only [] at h
        refine ⟨toInt32 r1, val2, l, hsw, ?_⟩
        by_cases hw : inst.rd ≠ 0 ∧ l.write_to_reg = true
        · rw [if_pos hw] at h
          unfold regSet at h
          by_cases hd : inst.rd < 32
          · rw [if_pos hd] at h
            simp only [Option.some.injEq] at h
            rw [← h]
          · rw [if_neg hd] at h
            exact absurd h (by simp)
        · rw [if_neg hw] at h
          simp only [Option.some.injEq] at h
          rw [← h]

theorem load_locals_next_pc (o : Option Nat) (pc : Nat) (mem : Nat → Nat) (l : ExecuteLocals)
    (h : (match o with
          | none => none
          | some v => some (⟨toInt32 v, true, pc, mem⟩ : ExecuteLocals)) = some l) :
    l.next_pc = pc := by
  cases o with
  | none => exact absurd h (by simp)
  | some v =>
    simp only [Option.some.injEq] at h
    rw [← h]

theorem store_locals_next_pc (o : Option (Nat → Nat)) (pc : Nat) (l : ExecuteLocals)
    (h : (match o with
          | none => none
          | some mem => some (⟨0, false, pc, mem⟩ : ExecuteLocals)) = some l) :
    l.next_pc = pc := by
  cases o with
  | none => exact absurd h (by simp)
  | some v =>
    simp only [Option.some.injEq] at h
    rw [← h]

/-- The `next_pc` of the `switch` is even when the PC is even and the immediate
of a branch or a jump is even. -/
theorem ExecuteSwitch_next_pc_even (s : CPU) (inst : DecodedInstruction) (val1 val2 : Int)
    (l : ExecuteLocals) (hpc : s.PC % 2 = 0)
    (himm : inst.opcode = BRANCH ∨ inst.opcode = JAL → inst.imm % 2 = 0)
    (h : ExecuteSwitch s inst val1 val2 = some l) : l.next_pc % 2 = 0 := by
  have hdef : (s.PC + 4) % 2 ^ 32 % 2 = 0 := by omega
  have hjump : inst.imm % 2 = 0 → toUInt32 ((s.PC : Int) + inst.imm) % 2 = 0 := by
    intro hi; unfold toUInt32; omega
  have hmask : ∀ x : Int, (toUInt32 x &&& 0xFFFFFFFE) % 2 = 0 := by
    intro x; rw [and_0xFFFFFFFE _ (toUInt32_lt _)]; omega
  unfold ExecuteSwitch at h
  by_cases c1 : inst.opcode = OP ∨ inst.opcode = OP_IMM
  · rw [if_pos c1] at h
    simp only [Option.some.injEq] at h
    rw [← h]; exact hdef
  rw [if_neg c1] at h
  by_cases c2 : inst.opcode = BRANCH
  · rw [if_pos c2] at h
    simp only [Option.some.injEq] at h
    rw [← h]
    show (if _ then _ else _) % 2 = 0
    split
    · exact hjump (himm (Or.inl c2))
    · exact hdef
  rw [if_neg c2] at h
  by_cases c3 : inst.opcode = JAL
  · rw [if_pos c3] at h
    simp only [Option.some.injEq] at h
    rw [← h]; exact hjump (himm (Or.inr c3))
  rw [if_neg c3] at h
  by_cases c4 : inst.opcode = JALR
  · rw [if_pos c4] at h
    simp only [Option.some.injEq] at h
    rw [← h]; exact hmask _
  rw [if_neg c4] at h
  by_cases c5 : inst.opcode = LUI
  · rw [if_pos c5] at h
    simp only [Option.some.injEq] at h
    rw [← h]; exact hdef
  rw [if_neg c5] at h
  by_cases c6 : inst.opcode = AUIPC
  · rw [if_pos c6] at h
    simp only [Option.some.injEq] at h
    rw [← h]; exact hdef
  rw [if_neg c6] at h
  by_cases c7 : inst.opcode = LOAD
  · rw [if_pos c7] at h
    rw [load_locals_next_pc _ _ _ _ h]; exact hdef
  rw [if_neg c7] at h
  by_cases c8 : inst.opcode = STORE
  · rw [if_pos c8] at h
    rw [store_locals_next_pc _ _ _ h]; exact hdef
  rw [if_neg c8] at h
  by_cases c9 : inst.opcode = SYSTEM
  · rw [if_pos c9] at h
    simp only [Option.some.injEq] at h
    rw [← h]; exact hdef
  · rw [if_neg c9] at h
    simp only [Option.some.injEq] at h
    rw [← h]; exact hdef

/-- `Execute` of a decoded word keeps an even PC even. -/
theorem Execute_Decode_PC_even (s s1 : CPU) (raw : Nat) (hpc : s.PC % 2 = 0)
    (h : Execute s (Decode raw) = some s1) : s1.PC % 2 = 0 := by
  obtain ⟨val1, val2, l, hsw, hl⟩ := Execute_PC s s1 _ h
  rw [hl]
  refine ExecuteSwitch_next_pc_even s _ val1 val2 l hpc ?_ hsw
  intro hop
  rcases hop with hb | hj
  · exact branch_imm_even raw (by rw [← Decode_opcode]; exact hb)
  · exact jal_imm_even raw (by rw [← Decode_opcode]; exact hj)

theorem runActions_PC_even (acts : List Action) (s s1 : CPU) (hpc : s.PC % 2 = 0)
    (h : runActions acts s = some s1) : s1.PC % 2 = 0 := by
  induction acts generalizing s with
  | nil =>
    simp only [runActions, Option.some.injEq] at h
    rw [← h]; exact hpc
  | cons a rest ih =>
    cases a with
    | load d addr =>
      simp only [runActions] at h
      exact ih (LoadMemory s d addr) hpc h
    | step =>
      simp only [runActions] at h
      cases hs : Step s with
      | none => rw [hs] at h; exact absurd h (by simp)
      | some s2 =>
        rw [hs] at h
        refine ih s2 ?_ h
        unfold Step at hs
        cases hf : FetchInstruction s with
        | none => rw [hf] at hs; exact absurd hs (by simp)
        | some w =>
          rw [hf] at hs
          exact Execute_Decode_PC_even s s2 w hpc hs

/-- The six fields of a 32-bit word, reassembled at their positions. -/
theorem fields_reassemble (raw : Nat) (hraw : raw < 2 ^ 32) :
    ((raw / 2 ^ 25 % 128) <<< 25) ||| ((raw / 2 ^ 20 % 32) <<< 20) ||| ((raw / 2 ^ 15 % 32) <<< 15)
      ||| ((raw / 2 ^ 12 % 8) <<< 12) ||| ((raw / 2 ^ 7 % 32) <<< 7) ||| (raw % 128) = raw := by
  simp only [Nat.shiftLeft_eq]
  rw [or_eq_add_of_mod 25 (raw / 2 ^ 25 % 128 * 2 ^ 25) _ (by omega) (by omega),
    or_eq_add_of_mod 20 (_ + _) _ (by omega) (by omega),
    or_eq_add_of_mod 15 (_ + _) _ (by omega) (by omega),
    or_eq_add_of_mod 12 (_ + _) _ (by omega) (by omega),
    or_eq_add_of_mod 7 (_ + _) _ (by omega) (by omega)]
  omega

/-- The fields of `Decode` as quotients and remainders. -/
theorem Decode_fields_arith (raw : Nat) :
    (Decode raw).opcode = raw % 128 ∧ (Decode raw).rd = raw / 2 ^ 7 % 32 ∧
    (Decode raw).funct3 = raw / 2 ^ 12 % 8 ∧ (Decode raw).rs1 = raw / 2 ^ 15 % 32 ∧
    (Decode raw).rs2 = raw / 2 ^ 20 % 32 ∧ (Decode raw).funct7 = raw / 2 ^ 25 % 128 := by
  simp only [Decode, OPCODE_MASK, REG_MASK, FUNCT3_MASK, FUNCT7_MASK, RD_SHIFT, FUNCT3_SHIFT,
    RS1_SHIFT, RS2_SHIFT, FUNCT7_SHIFT, and_0x7F, and_0x1F, and_0x7, Nat.shiftRight_eq_div_pow]
  exact ⟨trivial, trivial, trivial, trivial, trivial, trivial⟩

/-- What `Disassemble` prints for an `OP` record: the test `funct7 == 0x20`
comes before the `switch (inst.funct3)`, so every `OP` record with that `funct7`
is named `SUB`. -/
theorem Disassemble_OP_0x20 (inst : DecodedInstruction) (hop : inst.opcode = OP)
    (hf7 : inst.funct7 = 0x20) :
    Disassemble inst = "SUB x" ++ formatD (toInt32 inst.rd) ++ ", x"
      ++ formatD (toInt32 inst.rs1) ++ ", x" ++ formatD (toInt32 inst.rs2) := by
  unfold Disassemble
  simp only [hop, hf7, if_true]
  rfl

/-- Claim C21, store truncation and frame: for a `STORE` instruction with
`funct3` 0, 1 or 2 (width 1, 2, 4) whose effective address
`a = (Registers[rs1] + imm) mod 2 ^ 32` has `a + width <= MEMORY_SIZE`, `Execute`
succeeds; afterwards cell `a + i` holds byte `i` of `Registers[rs2]` for every
`i` below the width, every other cell and every register is unchanged, and the
PC is `(old PC + 4) mod 2 ^ 32`. -/
theorem store_semantics (s : CPU) (inst : DecodedInstruction) (hop : inst.opcode = STORE)
    (hf : inst.funct3 = 0 ∨ inst.funct3 = 1 ∨ inst.funct3 = 2)
    (h1 : inst.rs1 < 32) (h2 : inst.rs2 < 32)
    (hb : (((s.Registers inst.rs1 : Int) + inst.imm) % 2 ^ 32).toNat + storeWidth inst.funct3
      ≤ MEMORY_SIZE) :
    ∃ s1, Execute s inst = some s1 ∧
      (∀ i, i < storeWidth inst.funct3 →
        s1.Memory ((((s.Registers inst.rs1 : Int) + inst.imm) % 2 ^ 32).toNat + i)
          = s.Registers inst.rs2 / 2 ^ (8 * i) % 256) ∧
      (∀ j, ¬ ((((s.Registers inst.rs1 : Int) + inst.imm) % 2 ^ 32).toNat ≤ j ∧
            j < (((s.Registers inst.rs1 : Int) + inst.imm) % 2 ^ 32).toNat
                  + storeWidth inst.funct3) →
        s1.Memory j = s.Memory j) ∧
      s1.Registers = s.Registers ∧ s1.PC = (s.PC + 4) % 2 ^ 32 := by
  have hsz : storeWidth inst.funct3 = 1 ∨ storeWidth inst.funct3 = 2 ∨
      storeWidth inst.funct3 = 4 := by
    unfold storeWidth
    rcases hf with h | h | h <;> simp [h]
  have ha := toUInt32_toInt32_add (s.Registers inst.rs1) inst.imm
  generalize (((s.Registers inst.rs1 : Int) + inst.imm) % 2 ^ 32).toNat = a at *
  have hmw := MemWrite_inbounds s a (toUInt32 (toInt32 (s.Registers inst.rs2)))
    (storeWidth inst.funct3) hsz hb
  have hsw := ExecuteSwitch_store s inst (toInt32 (s.Registers inst.rs1))
    (toInt32 (s.Registers inst.rs2)) _ hop hf (by rw [ha]; exact hmw)
  have hex := Execute_nowrite s inst _ _ h1
    (ExecuteOperand2_reg s inst (Or.inr (Or.inr hop)) h2) hsw (Or.inr rfl)
  refine ⟨_, hex, ?_, ?_, rfl, rfl⟩
  · intro i hi
    have hc : a ≤ a + i ∧ a + i < a + storeWidth inst.funct3 := by omega
    show (if a ≤ a + i ∧ a + i < a + storeWidth inst.funct3 then _ else _) = _
    rw [if_pos hc, toUInt32_toInt32]
    have hk : a + i - a = i := by omega
    rw [hk]
    have hi4 : i < 4 := by
      rcases hsz with h | h | h <;> omega
    have hi' : i = 0 ∨ i = 1 ∨ i = 2 ∨ i = 3 := by omega
    rcases hi' with h | h | h | h <;> subst h <;> omega
  · intro j hj
    show (if a ≤ j ∧ j < a + storeWidth inst.funct3 then _ else _) = _
    rw [if_neg hj]

/-- The instruction `SH x2, -4(x1)` (word `0xFE209E23`) with `x1 = 0x104`,
`x2 = 0xDEADBEEF`: the cells `0x100`, `0x101` receive `0xEF`, `0xBE`, the cell
`0x102` is kept. -/
theorem store_semantics_witness :
    encodeS (-4) 1 2 1 = 0xFE209E23 ∧
    ∃ s1, Execute storeState (Decode 0xFE209E23) = some s1 ∧
      s1.Memory 0x100 = 0xEF ∧ s1.Memory 0x101 = 0xBE ∧
      s1.Memory 0x102 = storeState.Memory 0x102 ∧ s1.PC = 4 := by
  refine ⟨by decide, ?_⟩
  obtain ⟨s1, he, hbytes, hframe, -, hpc⟩ :=
    store_semantics storeState (Decode 0xFE209E23) (by decide) (by decide) (by decide)
      (by decide) (by decide)
  exact ⟨s1, he, hbytes 0 (by decide), hbytes 1 (by decide), hframe 0x102 (by decide), hpc⟩

/-- Claim C22: for every word whose opcode is `BRANCH`, the decoded immediate
is even, lies in `[-4096, 4094]`, and is a sign-extended 13-bit value: bits
31:13 of its 32-bit pattern are all ones when bit 12 is 1 and all zeros when
bit 12 is 0. -/
theorem branch_imm_range (raw : Nat) (hop : raw % 128 = BRANCH) :
    (Decode raw).imm % 2 = 0 ∧ -4096 ≤ (Decode raw).imm ∧ (Decode raw).imm ≤ 4094 ∧
    (toUInt32 (Decode raw).imm / 2 ^ 12 % 2 = 1 →
      toUInt32 (Decode raw).imm / 2 ^ 13 = 2 ^ 19 - 1) ∧
    (toUInt32 (Decode raw).imm / 2 ^ 12 % 2 = 0 → toUInt32 (Decode raw).imm / 2 ^ 13 = 0) := by
  rw [Decode_imm, Decode_opcode, hop, GenerateImmediate_BRANCH]
  have h12 : raw / 2 ^ 31 % 2 < 2 := Nat.mod_lt _ (by decide)
  generalize raw / 2 ^ 31 % 2 = b12 at *
  have h11 : raw / 2 ^ 7 % 2 < 2 := Nat.mod_lt _ (by decide)
  have h10 : raw / 2 ^ 25 % 64 < 64 := Nat.mod_lt _ (by decide)
  have h4 : raw / 2 ^ 8 % 16 < 16 := Nat.mod_lt _ (by decide)
  generalize raw / 2 ^ 7 % 2 = b11 at *
  generalize raw / 2 ^ 25 % 64 = b10 at *
  generalize raw / 2 ^ 8 % 16 = b4 at *
  unfold toUInt32
  split
  · rename_i hb
    subst hb
    refine ⟨?_, ?_, ?_, ?_, ?_⟩ <;> omega
  · rename_i hb
    have hb0 : b12 = 0 := by omega
    subst hb0
    refine ⟨?_, ?_, ?_, ?_, ?_⟩ <;> omega

/-- The branch word `0xFE208CE3` with immediate `-8`. -/
theorem branch_imm_range_witness :
    (Decode 0xFE208CE3).imm = -8 ∧
    (Decode 0xFE208CE3).imm % 2 = 0 ∧ -4096 ≤ (Decode 0xFE208CE3).imm ∧
    (Decode 0xFE208CE3).imm ≤ 4094 :=
  ⟨by decide, (branch_imm_range 0xFE208CE3 (by decide)).1,
   (branch_imm_range 0xFE208CE3 (by decide)).2.1,
   (branch_imm_range 0xFE208CE3 (by decide)).2.2.1⟩

/-- Claim C23, evaluated on the code at the word `0x4020D1B3` (`OP`,
`funct3 = 5`, `funct7 = 0x20`, the encoding of `SRA x3, x1, x2`): `Disassemble`
prints `SUB x3, x1, x2`, while `Execute` performs the arithmetic right shift
(`0x80000010 >> 4` with sign fill is `0xF8000001`; the difference would be
`0x8000000C`).  With `funct7 = 0` the name is `SRL`, as the claim says. -/
theorem disassemble_sra_as_sub :
    (Decode 0x4020D1B3).opcode = OP ∧ (Decode 0x4020D1B3).funct3 = 5 ∧
    (Decode 0x4020D1B3).funct7 = 0x20 ∧
    Disassemble (Decode 0x4020D1B3) = "SUB x3, x1, x2" ∧
    Disassemble (Decode 0x0020D1B3) = "SRL x3, x1, x2" ∧
    (Execute sraState (Decode 0x4020D1B3)).map (fun t => t.Registers 3) = some 0xF8000001 := by
  decide

/-- Claim C24, PC alignment: `Execute` of any decoded word on a state with an
even PC leaves the PC even, and every state reached from the initial CPU by
`LoadMemory` calls and steps has an even PC.  A step returns, with an even PC,
from every state with an even PC in which neither the fetch at the PC nor the
access of a load or store goes past the 32-bit address space (the only accesses
that can leave the memory vector); a load of a word with bit 31 set is such a
step. -/
theorem pc_alignment :
    (∀ (s s1 : CPU) (raw : Nat), s.PC % 2 = 0 → Execute s (Decode raw) = some s1 →
      s1.PC % 2 = 0) ∧
    (∀ (acts : List Action) (s : CPU), runActions acts CPU.init = some s → s.PC % 2 = 0) ∧
    (∀ s : CPU, s.PC % 2 = 0 → s.PC + 4 < 2 ^ 32 →
      (∀ inst, FetchInstruction s = some inst →
        (Decode inst).opcode = LOAD ∨ (Decode inst).opcode = STORE →
        toUInt32 (toInt32 (s.Registers (Decode inst).rs1) + (Decode inst).imm) + 4 < 2 ^ 32) →
      ∃ s1, Step s = some s1 ∧ s1.PC % 2 = 0) := by
  refine ⟨fun s s1 raw hpc h => Execute_Decode_PC_even s s1 raw hpc h,
    fun acts s h => runActions_PC_even acts CPU.init s rfl h, ?_⟩
  intro s hev hpc ha
  obtain ⟨inst, s1, -, he, hs⟩ := Step_defined s hpc ha
  exact ⟨s1, hs, Execute_Decode_PC_even s s1 inst hev he⟩

/-- The instruction `JALR x1, 2(x5)` with `x5 = 0x1001`, whose target sum is
odd, at the even PC 100; and the run `LUI x1, 0x80000`; `SW x1, 256(x0)`;
`LW x2, 256(x0)`, whose third step loads a word with bit 31 set and ends at
PC 12. -/
theorem pc_alignment_witness :
    jalrState.PC % 2 = 0 ∧
    (∃ s1, Execute jalrState (Decode 0x002280E7) = some s1 ∧ s1.PC % 2 = 0) ∧
    (∃ s, runActions lwActions CPU.init = some s ∧ s.Registers 2 = 0xFFFFFFFF ∧ s.PC = 12 ∧
      s.PC % 2 = 0) := by
  refine ⟨by decide, ?_, ?_⟩
  · cases h : Execute jalrState (Decode 0x002280E7) with
    | none =>
      have hsome : (Execute jalrState (Decode 0x002280E7)).isSome = true := by decide
      rw [h] at hsome
      exact absurd hsome (by simp)
    | some s1 => exact ⟨s1, rfl, pc_alignment.1 jalrState s1 0x002280E7 (by decide) h⟩
  · have hrun := runActions_lwActions
    cases h : runActions lwActions CPU.init with
    | none => rw [h] at hrun; exact absurd hrun (by simp)
    | some s =>
      rw [h] at hrun
      simp only [Option.map_some', Option.some.injEq, Prod.mk.injEq] at hrun
      exact ⟨s, rfl, hrun.1, hrun.2, pc_alignment.2.1 _ s h⟩

/-- Claim C25, `Decode` loses no information about the register-format
fields: for every 32-bit word,
`(funct7 << 25) | (rs2 << 20) | (rs1 << 15) | (funct3 << 12) | (rd << 7) | opcode`
of its decoded record is the word itself; hence two 32-bit words with the same
six fields are equal. -/
theorem decode_injective :
    (∀ raw : Nat, raw < 2 ^ 32 → packFields (Decode raw) = raw) ∧
    (∀ a b : Nat, a < 2 ^ 32 → b < 2 ^ 32 →
      (Decode a).opcode = (Decode b).opcode → (Decode a).rd = (Decode b).rd →
      (Decode a).funct3 = (Decode b).funct3 → (Decode a).rs1 = (Decode b).rs1 →
      (Decode a).rs2 = (Decode b).rs2 → (Decode a).funct7 = (Decode b).funct7 → a = b) := by
  have hpack : ∀ raw : Nat, raw < 2 ^ 32 → packFields (Decode raw) = raw := by
    intro raw hraw
    obtain ⟨h1, h2, h3, h4, h5, h6⟩ := Decode_fields_arith raw
    unfold packFields
    rw [h1, h2, h3, h4, h5, h6]
    exact fields_reassemble raw hraw
  refine ⟨hpack, ?_⟩
  intro a b ha hb e1 e2 e3 e4 e5 e6
  rw [← hpack a ha, ← hpack b hb]
  unfold packFields
  rw [e1, e2, e3, e4, e5, e6]

/-- The word `0xFE208CE3` packs back from its fields. -/
theorem decode_injective_witness :
    packFields (Decode 0xFE208CE3) = 0xFE208CE3 :=
  decode_injective.1 0xFE208CE3 (by decide)

/-- Claim C26, JALR reads its base register before linking: for a `JALR`
instruction with `rd = rs1 != 0`, after `Execute` the PC is the 32-bit sum of
the old `Registers[rs1]` and `imm` with bit 0 cleared, and `Registers[rd]` is
`(old PC + 4) mod 2 ^ 32`. -/
theorem jalr_same_register (s : CPU) (inst : DecodedInstruction) (hop : inst.opcode = JALR)
    (hsame : inst.rd = inst.rs1) (hd : inst.rd ≠ 0) (hd32 : inst.rd < 32) :
    ∃ s1, Execute s inst = some s1 ∧
      s1.PC = (((s.Registers inst.rs1 : Int) + inst.imm) % 2 ^ 32).toNat
                - (((s.Registers inst.rs1 : Int) + inst.imm) % 2 ^ 32).toNat % 2 ∧
      s1.Registers inst.rd = (s.PC + 4) % 2 ^ 32 := by
  refine ⟨_, Execute_JALR s inst hop (by rw [← hsame]; exact hd32) hd hd32, rfl, ?_⟩
  show (if inst.rd = inst.rd then (s.PC + 4) % 2 ^ 32 else _) = _
  rw [if_pos rfl]

/-- The instruction `JALR x5, 2(x5)` (word `0x002282E7`) at PC 100 with
`x5 = 0x1001`: the next PC is `0x1002` and x5 becomes 104. -/
theorem jalr_same_register_witness :
    encodeI JALR 2 5 5 0 = 0x002282E7 ∧
    (Execute jalrState (Decode 0x002282E7)).map (fun t => (t.PC, t.Registers 5))
      = some (0x1002, 104) ∧
    ∃ s1, Execute jalrState (Decode 0x002282E7) = some s1 ∧
      s1.Registers (Decode 0x002282E7).rd = (jalrState.PC + 4) % 2 ^ 32 := by
  refine ⟨by decide, by decide, ?_⟩
  obtain ⟨s1, h, -, h2⟩ :=
    jalr_same_register jalrState (Decode 0x002282E7) (by decide) (by decide) (by decide)
      (by decide)
  exact ⟨s1, h, h2⟩

/-- Claim C27, a `LOAD` with an undefined width selector: for `funct3` 3, 6 or
7 and `rd != 0`, `Execute` is defined whatever the effective address and the
memory are (nothing is read or written), sets `Registers[rd]` to 0, leaves every
other register and the memory unchanged, and sets the PC to
`(PC + 4) mod 2 ^ 32`. -/
theorem load_undefined_width (s : CPU) (inst : DecodedInstruction) (hop : inst.opcode = LOAD)
    (hf : inst.funct3 = 3 ∨ inst.funct3 = 6 ∨ inst.funct3 = 7)
    (h1 : inst.rs1 < 32) (hd : inst.rd ≠ 0) (hd32 : inst.rd < 32) :
    Execute s inst = some
      ⟨fun j => if j = inst.rd then 0 else s.Registers j, (s.PC + 4) % 2 ^ 32, s.Memory⟩ := by
  rw [Execute_write s inst _ _ h1 (ExecuteOperand2_imm s inst (by rw [hop]; decide))
    (ExecuteSwitch_load_default s inst _ _ hop hf) hd hd32 rfl]
  rfl

/-- The word `0xFFE07083` (`LOAD`, `funct3 = 7`, `rd = 1`, `rs1 = 0`,
`imm = -2`, effective address `0xFFFFFFFE`) on a state with `x1 = 7`, `x2 = 9`:
x1 becomes 0, x2 and the PC rule are as stated. -/
theorem load_undefined_width_witness :
    encodeI LOAD (-2) 1 0 7 = 0xFFE07083 ∧
    (Execute aluState (Decode 0xFFE07083)).map (fun t => (t.Registers 1, t.Registers 2, t.PC))
      = some (0, 9, 4) := by
  refine ⟨by decide, ?_⟩
  rw [load_undefined_width aluState (Decode 0xFFE07083) (by decide) (by decide) (by decide)
    (by decide) (by decide)]
  decide

end RISCV
